import Mathlib

/-!
Verification development for the WBC velocity solver (`src/src/WbcVelocity.cpp`).

The C++ class `wbc::WbcVelocity` is embedded shallowly: its member state
becomes the structure `Wbc.WbcState`, its methods become pure functions on
that structure, exceptions become `Except Wbc.WbcError`, `double` becomes
`ℚ`, and `base::Time` instants become `ℚ` seconds.  The external singular
value decomposition routine `KDL::svd_eigen_HH` and the clock
`base::Time::now()` are parameters (`Wbc.Env`), since they are external
library calls.  KDL geometry (`KDL::Frame`, `KDL::Twist`, `KDL::Rotation`,
`KDL::Jacobian`) is embedded with exact rational arithmetic following the
KDL definitions of the operators the source uses.
-/

namespace Wbc

/-! ### KDL geometry (frames, twists, rotations) over ℚ -/

structure Vec3 where
  x : ℚ
  y : ℚ
  z : ℚ
deriving DecidableEq

def Vec3.zero : Vec3 := ⟨0, 0, 0⟩

def Vec3.add (a b : Vec3) : Vec3 := ⟨a.x + b.x, a.y + b.y, a.z + b.z⟩

def Vec3.neg (a : Vec3) : Vec3 := ⟨-a.x, -a.y, -a.z⟩

/-- Cross product, as in `KDL::Vector` multiplication. -/
def Vec3.cross (a b : Vec3) : Vec3 :=
  ⟨a.y * b.z - a.z * b.y, a.z * b.x - a.x * b.z, a.x * b.y - a.y * b.x⟩

/-- A 3×3 rotation matrix (`KDL::Rotation`), stored by rows. -/
structure Mat3 where
  r1 : Vec3
  r2 : Vec3
  r3 : Vec3
deriving DecidableEq

def Vec3.dot (a b : Vec3) : ℚ := a.x * b.x + a.y * b.y + a.z * b.z

def Mat3.mulVec (m : Mat3) (v : Vec3) : Vec3 := ⟨m.r1.dot v, m.r2.dot v, m.r3.dot v⟩

def Mat3.transpose (m : Mat3) : Mat3 :=
  ⟨⟨m.r1.x, m.r2.x, m.r3.x⟩, ⟨m.r1.y, m.r2.y, m.r3.y⟩, ⟨m.r1.z, m.r2.z, m.r3.z⟩⟩

def Mat3.id : Mat3 := ⟨⟨1, 0, 0⟩, ⟨0, 1, 0⟩, ⟨0, 0, 1⟩⟩

def Mat3.mul (a b : Mat3) : Mat3 :=
  let bt := b.transpose
  ⟨⟨a.r1.dot bt.r1, a.r1.dot bt.r2, a.r1.dot bt.r3⟩,
   ⟨a.r2.dot bt.r1, a.r2.dot bt.r2, a.r2.dot bt.r3⟩,
   ⟨a.r3.dot bt.r1, a.r3.dot bt.r2, a.r3.dot bt.r3⟩⟩

/-- `KDL::Frame`: a rotation `M` and a translation `p`. -/
structure Frame where
  M : Mat3
  p : Vec3
deriving DecidableEq

def Frame.id : Frame := ⟨Mat3.id, Vec3.zero⟩

/-- `KDL::Frame::Inverse()`: for a rotation matrix the inverse of `M` is its
transpose, and the translation becomes `-(Mᵀ p)`. -/
def Frame.inv (f : Frame) : Frame :=
  ⟨f.M.transpose, (f.M.transpose.mulVec f.p).neg⟩

/-- `KDL::Frame` composition `f * g`. -/
def Frame.mul (f g : Frame) : Frame :=
  ⟨f.M.mul g.M, (f.M.mulVec g.p).add f.p⟩

/-- `KDL::Twist`: linear velocity `vel` and angular velocity `rot`. -/
structure Twist where
  vel : Vec3
  rot : Vec3
deriving DecidableEq

def Twist.zero : Twist := ⟨Vec3.zero, Vec3.zero⟩

/-- `KDL::Frame * KDL::Twist`: transforms both the reference frame and the
reference point (`tmp.rot = M*rot; tmp.vel = M*vel + p × tmp.rot`). -/
def frameTwist (f : Frame) (t : Twist) : Twist :=
  let rot := f.M.mulVec t.rot
  ⟨(f.M.mulVec t.vel).add (f.p.cross rot), rot⟩

/-- `KDL::Rotation * KDL::Twist`: transforms only the reference frame
(`vel' = M*vel; rot' = M*rot`). -/
def rotTwist (m : Mat3) (t : Twist) : Twist :=
  ⟨m.mulVec t.vel, m.mulVec t.rot⟩

/-- `KDL::Twist::RefPoint(v)`: `Twist(vel + rot × v, rot)`. -/
def Twist.refPoint (t : Twist) (v : Vec3) : Twist :=
  ⟨t.vel.add (t.rot.cross v), t.rot⟩

/-- Reading a twist component by index, `KDL::Twist::operator()`:
indices 0..2 are the linear part, 3..5 the angular part. -/
def listOfTwist (t : Twist) : List ℚ :=
  [t.vel.x, t.vel.y, t.vel.z, t.rot.x, t.rot.y, t.rot.z]

/-- Writing a twist from six components (`tmp_twist(i) = constraint->y_ref(i)`
for i = 0..5 in the source). -/
def twistOfList (l : List ℚ) : Twist :=
  ⟨⟨l.getD 0 0, l.getD 1 0, l.getD 2 0⟩, ⟨l.getD 3 0, l.getD 4 0, l.getD 5 0⟩⟩

/-! ### The reference-twist transformation of `prepareEqSystem` (lines 273-279)

The source computes `pose_ref_frame_in_root = tf_root.pose.Inverse() *
tf_ref_frame.pose` and then applies `pose_ref_frame_in_root * tmp_twist`,
which is the `KDL::Frame * KDL::Twist` operator.  The comment above those
lines (lines 264-272) states the intent of using `KDL::Rotation*KDL::Twist`
instead; `refTwistRotationOnly` below is that intended, rotation-only
transformation, kept for comparison. -/

/-- The transformation the code performs on the constraint's reference twist
(`WbcVelocity.cpp` lines 273-279): `KDL::Frame * KDL::Twist`. -/
def refTwistCode (rootPose refPose : Frame) (y : List ℚ) : List ℚ :=
  listOfTwist (frameTwist (Frame.mul rootPose.inv refPose) (twistOfList y))

/-- Modelled from the spec: the rotation-only transformation the spec (and the
source's own comment at lines 264-272) describes — apply only the orientation
of `root⁻¹ · reference_frame` to the twist, `KDL::Rotation * KDL::Twist`. -/
def refTwistRotationOnly (rootPose refPose : Frame) (y : List ℚ) : List ℚ :=
  listOfTwist (rotTwist (Frame.mul rootPose.inv refPose).M (twistOfList y))

/-! ### Constraint configuration and runtime state -/

/-- `wbc::constraint_type`: `cart` or `jnt`. -/
inductive ConstraintType where
  | cart : ConstraintType
  | jnt : ConstraintType
deriving DecidableEq

/-- `wbc::ConstraintConfig`: the immutable specification of one constraint
(name, priority, type, frames or joint list, weights, timeout). -/
structure ConstraintConfig where
  name : String
  priority : Int
  ctype : ConstraintType
  root : String
  tip : String
  ref_frame : String
  joint_names : List String
  weights : List ℚ
  timeout : ℚ
deriving DecidableEq

/-- `wbc::ExtendedConstraint`: the per-constraint runtime state the solver
owns.  The per-cycle decomposition intermediates (`Uf`, `Sf`, `Vf`, `H`,
`jac_helper`, the relative poses) are fully recomputed on every evaluation
before being read, so the model keeps them local to `evalCartesian` instead
of storing them. -/
structure ExtendedConstraint where
  config : ConstraintConfig
  no_variables : Nat
  y_ref : List ℚ
  y_ref_root : List ℚ
  weights : List ℚ
  activation : ℚ
  constraint_timed_out : Bool
  last_ref_input : ℚ
  time : ℚ
  A : List (List ℚ)
deriving DecidableEq

/-- Modelled from the spec: the constructor `ExtendedConstraint(config,
joint_names)` lives in `ExtendedConstraint.hpp`, which is not under `src/`.
Per the spec's data model, the output dimensionality is 6 for a Cartesian
constraint and the number of listed joints for a Joint constraint; the
reference values are vectors of that size, the weight vector comes from the
specification, and the task matrix has `no_variables` rows and one column
per robot joint, allocated zeroed.  The activation gate starts at zero (the
spec treats activation as the caller-driven switch between task phases). -/
def mkExtendedConstraint (cfg : ConstraintConfig) (joint_names : List String) :
    ExtendedConstraint :=
  let nv : Nat :=
    match cfg.ctype with
    | .cart => 6
    | .jnt => cfg.joint_names.length
  { config := cfg
    no_variables := nv
    y_ref := List.replicate nv 0
    y_ref_root := List.replicate nv 0
    weights := cfg.weights
    activation := 0
    constraint_timed_out := false
    last_ref_input := 0
    time := 0
    A := List.replicate nv (List.replicate joint_names.length 0) }

/-! ### Sorted association lists modelling `std::map` -/

/-- `std::map` insertion `m[k] = v`: the container keeps its entries sorted
by key and replaces the value when the key is already present. -/
def mapInsert {α : Type} (m : List (String × α)) (k : String) (v : α) :
    List (String × α) :=
  match m with
  | [] => [(k, v)]
  | (k', v') :: rest =>
    if k < k' then (k, v) :: (k', v') :: rest
    else if k = k' then (k, v) :: rest
    else (k', v') :: mapInsert rest k v

/-- `std::map` lookup (`m.find(k)` / `m[k]` on the read side). -/
def mapFind? {α : Type} (m : List (String × α)) (k : String) : Option α :=
  (m.find? (fun p => p.1 = k)).map (fun p => p.2)

/-! ### Solver state -/

/-- `wbc::LinearEquationSystem`: one per-priority system
{weight row, task matrix, reference vector}. -/
structure LinearEquationSystem where
  W_row : List ℚ
  A : List (List ℚ)
  y_ref : List ℚ
deriving DecidableEq

/-- Modelled from the spec: `LinearEquationSystem::resize(n, N)` is declared
outside `src/`; per the spec's assembly step 2, it sizes the weight vector
and reference vector to the level's row count `n` and the task matrix to
`n × N`, freshly allocated (zero-filled). -/
def lesResize (n N : Nat) : LinearEquationSystem :=
  ⟨List.replicate n 0, List.replicate n (List.replicate N 0), List.replicate n 0⟩

/-- The per-cycle task-frame input (`wbc::TaskFrame`): a joint-name list, the
frame's local Jacobian (stored per KDL as one twist column per joint) and the
frame's pose. -/
structure TaskFrame where
  joint_names : List String
  jacobian : List Twist
  pose : Frame
deriving DecidableEq

abbrev TaskFrameMap := List (String × TaskFrame)

def defaultTaskFrame : TaskFrame := ⟨[], [], Frame.id⟩

/-- The member state of `wbc::WbcVelocity`.  In the C++ class,
`constraint_map_` stores pointers to the same `ExtendedConstraint` objects
the priority-indexed `constraint_vector_` owns; the model keeps the owned
constraints in `constraint_vector` and lets the name-keyed map carry the
constraint's configuration, with per-name mutation going through
`constraint_vector`. -/
structure WbcState where
  configured : Bool
  no_robot_joints : Nat
  joint_index_map : List (String × Nat)
  constraint_map : List (String × ConstraintConfig)
  constraint_vector : List (List ExtendedConstraint)
  n_constraints_per_prio : List Nat
  n_prios : Nat
  jac_map : List (String × List Twist)
  task_frame_ids : List String
deriving DecidableEq

/-- The state of a freshly constructed `WbcVelocity` (source lines 10-14):
the constructor initializes `configured_ := false` and
`no_robot_joints_ := 0`, and the container members are default-empty.
Modelled from the spec: the counter `n_prios_` is declared in
`WbcVelocity.hpp`, which is not under `src/`; per the spec's lifecycle a
solver holds no configuration before `configure()`, so it starts at 0 (and
`n_constraints_per_prio_` empty). -/
def initState : WbcState :=
  { configured := false
    no_robot_joints := 0
    joint_index_map := []
    constraint_map := []
    constraint_vector := []
    n_constraints_per_prio := []
    n_prios := 0
    jac_map := []
    task_frame_ids := [] }

/-- `WbcVelocity::clear()` (lines 20-34): empties the constraint containers,
the Jacobian registry, the joint index map and the task-frame id list and
resets the joint count.  It does not touch `configured_`, `n_prios_` or
`n_constraints_per_prio_`. -/
def WbcState.clear (s : WbcState) : WbcState :=
  { s with
    jac_map := []
    constraint_map := []
    constraint_vector := []
    joint_index_map := []
    no_robot_joints := 0
    task_frame_ids := [] }

instance {ε α : Type} [DecidableEq ε] [DecidableEq α] : DecidableEq (Except ε α) :=
  fun a b =>
    match a, b with
    | .ok x, .ok y =>
      match decEq x y with
      | .isTrue h => .isTrue (by rw [h])
      | .isFalse h => .isFalse (by intro hc; cases hc; exact h rfl)
    | .error x, .error y =>
      match decEq x y with
      | .isTrue h => .isTrue (by rw [h])
      | .isFalse h => .isFalse (by intro hc; cases hc; exact h rfl)
    | .ok _, .error _ => .isFalse (by intro hc; cases hc)
    | .error _, .ok _ => .isFalse (by intro hc; cases hc)

/-- The errors the source reports (via `return false` in `configure` and via
thrown exceptions elsewhere). -/
inductive WbcError where
  | notConfigured : WbcError
  | invalidConstraintName : WbcError
  | incompleteTaskFrameInput : WbcError
  | invalidJointName : WbcError
  | invalidConstraintConfig : WbcError
deriving DecidableEq

/-! ### configure() (lines 36-148) -/

/-- The loop `for i: joint_index_map_[joint_names[i]] = i` (lines 46-47). -/
def buildJointIndexMapAux : List String → Nat → List (String × Nat) →
    List (String × Nat)
  | [], _, m => m
  | name :: rest, i, m => buildJointIndexMapAux rest (i + 1) (mapInsert m name i)

def buildJointIndexMap (joint_names : List String) : List (String × Nat) :=
  buildJointIndexMapAux joint_names 0 []

/-- `max_prio` as computed by the validation loop (lines 50-60). -/
def maxPrio (config : List ConstraintConfig) : Int :=
  config.foldl (fun m c => if c.priority > m then c.priority else m) 0

/-- `constraint_vector_[prio].push_back(constraint)` (line 65). -/
def pushToBucket (v : List (List ExtendedConstraint)) (p : Nat)
    (c : ExtendedConstraint) : List (List ExtendedConstraint) :=
  v.set p (v.getD p [] ++ [c])

/-- The creation loop of `configure` (lines 62-74): create each constraint,
append it to its priority's bucket, then fail on a duplicate name or record
the name in `constraint_map_`. -/
def insertConstraints (joint_names : List String) :
    List ConstraintConfig → WbcState → WbcState × Bool
  | [], s => (s, true)
  | cfg :: rest, s =>
    let c := mkExtendedConstraint cfg joint_names
    let s1 : WbcState :=
      { s with constraint_vector := pushToBucket s.constraint_vector cfg.priority.toNat c }
    if (mapFind? s1.constraint_map cfg.name).isSome then (s1, false)
    else
      insertConstraints joint_names rest
        { s1 with constraint_map := mapInsert s1.constraint_map cfg.name cfg }

/-- The effect of the creation loop on the priority buckets alone (the
`constraint_vector_[prio].push_back` side of `insertConstraints`), used to
state its characterization. -/
def insertPure (joint_names : List String) :
    List ConstraintConfig → List (List ExtendedConstraint) →
    List (List ExtendedConstraint)
  | [], v => v
  | cfg :: rest, v =>
    insertPure joint_names rest
      (pushToBucket v cfg.priority.toNat (mkExtendedConstraint cfg joint_names))

def zeroJacobian (n : Nat) : List Twist := List.replicate n Twist.zero

/-- One step of the task-frame collection (lines 99-124): allocate a zeroed
Jacobian placeholder and record the frame id, unless the frame is known. -/
def addTaskFrame (n : Nat) (acc : List (String × List Twist) × List String)
    (tf_name : String) : List (String × List Twist) × List String :=
  if (mapFind? acc.1 tf_name).isSome then acc
  else (mapInsert acc.1 tf_name (zeroJacobian n), acc.2 ++ [tf_name])

/-- The task-frame collection loop of `configure` (lines 95-126), iterating
over `constraint_map_` (hence in name order, which the sorted association
list provides): for every Cartesian constraint register its root, tip and
reference frame. -/
def buildTFMap (n : Nat) (cmap : List (String × ConstraintConfig)) :
    List (String × List Twist) × List String :=
  cmap.foldl
    (fun acc p =>
      if p.2.ctype = .cart then
        addTaskFrame n (addTaskFrame n (addTaskFrame n acc p.2.root) p.2.tip) p.2.ref_frame
      else acc)
    ([], [])

/-- The opening of `configure` (lines 40-47): `clear()`, then record the
joint count and build the joint index map. -/
def configureStage1 (s : WbcState) (joint_names : List String) : WbcState :=
  { s.clear with
    no_robot_joints := joint_names.length
    joint_index_map := buildJointIndexMap joint_names }

/-- `constraint_vector_.resize(max_prio + 1)` (line 61). -/
def configureStage2 (s1 : WbcState) (config : List ConstraintConfig) : WbcState :=
  { s1 with constraint_vector := List.replicate ((maxPrio config).toNat + 1) [] }

/-- The tail of a successful `configure` (lines 76-147): erase the empty
priority levels (the in-place erase loop removes every empty bucket while
preserving order), compute the per-level row counts, collect the task
frames, and set `configured_`. -/
def configureFinish (s3 : WbcState) : WbcState :=
  let vec := s3.constraint_vector.filter (fun l => !l.isEmpty)
  let tf := buildTFMap s3.joint_index_map.length s3.constraint_map
  { s3 with
    constraint_vector := vec
    n_constraints_per_prio :=
      vec.map (fun level => (level.map (fun c => c.y_ref.length)).sum)
    n_prios := vec.length
    jac_map := tf.1
    task_frame_ids := tf.2
    configured := true }

/-- `WbcVelocity::configure(config, joint_names)` (lines 36-148).  Returns
the mutated state together with the `bool` result.  Mirrors the source
order: `clear()`; joint count and joint index map; priority validation
(failure leaves the partially mutated state behind); bucket allocation up to
the maximum priority; constraint creation with duplicate-name detection;
removal of empty priority levels; per-level row counts; task-frame
collection; and only then `configured_ = true`. -/
def configure (s : WbcState) (config : List ConstraintConfig)
    (joint_names : List String) : WbcState × Bool :=
  let s1 := configureStage1 s joint_names
  if config.any (fun c => c.priority < 0) then (s1, false)
  else
    match insertConstraints joint_names config (configureStage2 s1 config) with
    | (s3, false) => (s3, false)
    | (s3, true) => (configureFinish s3, true)

/-! ### constraint() lookup (lines 150-161) -/

/-- `WbcVelocity::constraint(name)`: throws "Configure has not been called
yet" when not configured, "Invalid constraint name" when the name is
unknown, and otherwise returns the handle (here: the stored
configuration). -/
def constraintLookup (s : WbcState) (name : String) :
    Except WbcError ConstraintConfig :=
  if ¬ s.configured then .error .notConfigured
  else
    match mapFind? s.constraint_map name with
    | none => .error .invalidConstraintName
    | some c => .ok c

/-! ### The caller-facing mutator surface

Modelled from the spec (§6): callers push new reference, activation and
weight values each cycle through the constraint handle obtained from
`constraint()`; writing a reference also updates the last-reference-update
timestamp.  The handle aliases the objects `constraint_vector_` owns, so the
model rewrites the named constraint inside the vector. -/

def updateConstraint (s : WbcState) (name : String)
    (f : ExtendedConstraint → ExtendedConstraint) : WbcState :=
  { s with
    constraint_vector :=
      s.constraint_vector.map
        (List.map (fun c => if c.config.name = name then f c else c)) }

/-- Modelled from the spec: set a constraint's reference value at time `t`
(the write stamps `last_ref_input`). -/
def setReference (s : WbcState) (name : String) (v : List ℚ) (t : ℚ) : WbcState :=
  updateConstraint s name (fun c => { c with y_ref := v, last_ref_input := t })

/-- Modelled from the spec: set a constraint's activation gate. -/
def setActivation (s : WbcState) (name : String) (a : ℚ) : WbcState :=
  updateConstraint s name (fun c => { c with activation := a })

/-- Modelled from the spec: set a constraint's weight vector. -/
def setWeights (s : WbcState) (name : String) (w : List ℚ) : WbcState :=
  updateConstraint s name (fun c => { c with weights := w })

/-! ### prepareEqSystem() (lines 163-315) -/

/-- The external inputs of one cycle: the current time (`base::Time::now()`)
and the singular value decomposition routine (`KDL::svd_eigen_HH`), which
returns `(U, S, V)` for a given matrix. -/
structure Env where
  now : ℚ
  svd : List (List ℚ) → List (List ℚ) × List ℚ × List (List ℚ)

/-- The timeout check (lines 216-226): with a positive configured timeout
the constraint is timed out exactly when the elapsed time since the last
reference update exceeds it; a non-positive timeout never times out. -/
def timeoutFlag (env : Env) (c : ExtendedConstraint) : Bool :=
  if c.config.timeout > 0 then
    decide (env.now - c.last_ref_input > c.config.timeout)
  else false

/-- Column splicing for one supplied task frame (lines 185-197): for each of
the frame's joints, fail if the joint is unknown to the joint index map,
else write that column of the local Jacobian into the mapped column of the
full robot Jacobian. -/
def spliceColumns (jim : List (String × Nat)) :
    List (String × Twist) → List Twist → Except WbcError (List Twist)
  | [], jac => .ok jac
  | (name, col) :: rest, jac =>
    match mapFind? jim name with
    | none => .error .invalidJointName
    | some idx => spliceColumns jim rest (jac.set idx col)

/-- The registry update loop (lines 179-198): for every supplied task frame,
splice its columns into `jac_map_[tf_name]` (with `std::map::operator[]`
semantics: an absent entry is default-constructed first). -/
def updateJacMap (jim : List (String × Nat)) :
    List (String × List Twist) → TaskFrameMap →
    Except WbcError (List (String × List Twist))
  | jmap, [] => .ok jmap
  | jmap, (tf_name, tf) :: rest =>
    let cur := (mapFind? jmap tf_name).getD []
    match spliceColumns jim (tf.joint_names.zip tf.jacobian) cur with
    | .error e => .error e
    | .ok jac => updateJacMap jim (mapInsert jmap tf_name jac) rest

/-- `jac.data` of a KDL Jacobian stored as twist columns: the 6×n matrix
whose rows 0..2 are the linear parts and rows 3..5 the angular parts. -/
def jacData (cols : List Twist) : List (List ℚ) :=
  [cols.map (fun t => t.vel.x), cols.map (fun t => t.vel.y),
   cols.map (fun t => t.vel.z), cols.map (fun t => t.rot.x),
   cols.map (fun t => t.rot.y), cols.map (fun t => t.rot.z)]

/-- `jac_helper.data.setIdentity()` (line 240) viewed as twist columns:
column `j` is the `j`-th unit twist. -/
def idJacHelper : List Twist :=
  [⟨⟨1, 0, 0⟩, Vec3.zero⟩, ⟨⟨0, 1, 0⟩, Vec3.zero⟩, ⟨⟨0, 0, 1⟩, Vec3.zero⟩,
   ⟨Vec3.zero, ⟨1, 0, 0⟩⟩, ⟨Vec3.zero, ⟨0, 1, 0⟩⟩, ⟨Vec3.zero, ⟨0, 0, 1⟩⟩]

def dotL (a b : List ℚ) : ℚ := ((a.zip b).map (fun p => p.1 * p.2)).sum

/-- Transpose of a rectangular row-major matrix. -/
def transposeL (m : List (List ℚ)) : List (List ℚ) :=
  (List.range (m.headD []).length).map (fun j => m.map (fun row => row.getD j 0))

def matMulL (a b : List (List ℚ)) : List (List ℚ) :=
  a.map (fun row => (transposeL b).map (fun col => dotL row col))

def matSubL (a b : List (List ℚ)) : List (List ℚ) :=
  List.zipWith (fun ra rb => List.zipWith (fun x y => x - y) ra rb) a b

/-- The singular-value processing loop (lines 247-253) on the columns of
`Uf`: a column with a strictly positive singular value is scaled by its
reciprocal, any other column is zeroed. -/
def scaleColsL (u : List (List ℚ)) (s : List ℚ) : List (List ℚ) :=
  u.map (fun row =>
    row.mapIdx (fun j x =>
      if j < s.length then
        (if s.getD j 0 > 0 then x * (1 / s.getD j 0) else 0)
      else x))

/-- The Cartesian branch of the per-constraint evaluation (lines 228-280):
relative tip pose, local 6×6 Jacobian (identity, reference point moved to
the relative pose's origin, re-expressed via the root pose), its
pseudo-inverse `H = Vf · Ufᵀ` after singular-value processing, the task
matrix `A = H.block(0,0,n,6)·J_tip − H.block(0,0,n,6)·J_root`, and the
reference twist transformed by `pose_ref_frame_in_root * twist`. -/
def evalCartesian (env : Env) (tfs : TaskFrameMap)
    (jmap : List (String × List Twist)) (c : ExtendedConstraint) :
    ExtendedConstraint :=
  let tf_root := (mapFind? tfs c.config.root).getD defaultTaskFrame
  let tf_tip := (mapFind? tfs c.config.tip).getD defaultTaskFrame
  let tf_ref := (mapFind? tfs c.config.ref_frame).getD defaultTaskFrame
  let pose_tip_in_root := Frame.mul tf_root.pose.inv tf_tip.pose
  let jac_helper :=
    (idJacHelper.map (fun t => t.refPoint pose_tip_in_root.p.neg)).map
      (fun t => frameTwist tf_root.pose t)
  let usv := env.svd (jacData jac_helper)
  let h := matMulL usv.2.2 (transposeL (scaleColsL usv.1 usv.2.1))
  let hb := (h.take c.no_variables).map (fun row => row.take 6)
  let jac_root := (mapFind? jmap c.config.root).getD []
  let jac_tip := (mapFind? jmap c.config.tip).getD []
  let a := matSubL (matMulL hb (jacData jac_tip)) (matMulL hb (jacData jac_root))
  { c with
    A := a
    y_ref_root := refTwistCode tf_root.pose tf_ref.pose c.y_ref }

/-- `A(i, idx) = 1.0` (line 294). -/
def setEntry (a : List (List ℚ)) (r cIdx : Nat) (v : ℚ) : List (List ℚ) :=
  a.set r ((a.getD r []).set cIdx v)

/-- The Joint branch of the per-constraint evaluation (lines 281-297): for
the `i`-th listed joint, fail if it is not in the joint index map, else set
`A(i, idx)` to 1 and copy the reference to the root-frame reference. -/
def jntLoop (jim : List (String × Nat)) :
    List (Nat × String) → ExtendedConstraint → Except WbcError ExtendedConstraint
  | [], c => .ok c
  | (i, name) :: rest, c =>
    match mapFind? jim name with
    | none => .error .invalidConstraintConfig
    | some idx =>
      jntLoop jim rest { c with A := setEntry c.A i idx 1, y_ref_root := c.y_ref }

/-- One constraint's evaluation inside the priority loop (lines 216-306):
timeout flag, the type-dependent branch, the evaluation timestamp, and the
zeroing of both reference values when the activation gate is zero. -/
def evalConstraint (env : Env) (jim : List (String × Nat)) (tfs : TaskFrameMap)
    (jmap : List (String × List Twist)) (c : ExtendedConstraint) :
    Except WbcError ExtendedConstraint :=
  let c1 := { c with constraint_timed_out := timeoutFlag env c }
  let branch : Except WbcError ExtendedConstraint :=
    match c1.config.ctype with
    | .cart => .ok (evalCartesian env tfs jmap c1)
    | .jnt => jntLoop jim c1.config.joint_names.enum c1
  match branch with
  | .error e => .error e
  | .ok c2 =>
    let c3 := { c2 with time := env.now }
    if c3.activation = 0 then
      .ok { c3 with
            y_ref := c3.y_ref.map (fun _ => 0)
            y_ref_root := c3.y_ref_root.map (fun _ => 0) }
    else .ok c3

/-- The effective weight row written for one constraint (line 308):
`weights * activation * (!constraint_timed_out)`. -/
def effWeightRow (c : ExtendedConstraint) : List ℚ :=
  c.weights.map (fun w => w * c.activation * (if c.constraint_timed_out then 0 else 1))

/-- An Eigen `segment`/`block` assignment: overwrite the entries starting at
`k` with `seg`. -/
def setSeg {α : Type} (l : List α) (k : Nat) (seg : List α) : List α :=
  l.take k ++ seg ++ l.drop (k + seg.length)

/-- The inner loop over one priority level (lines 210-313): evaluate each
constraint, write its weight row, task-matrix block and reference row at the
running row offset, and advance the offset by its output dimensionality.
Returns the filled system, the mutated constraints and the final offset. -/
def assembleLevel (env : Env) (jim : List (String × Nat)) (tfs : TaskFrameMap)
    (jmap : List (String × List Twist)) :
    List ExtendedConstraint → LinearEquationSystem → Nat →
    Except WbcError (LinearEquationSystem × List ExtendedConstraint × Nat)
  | [], eq, row => .ok (eq, [], row)
  | c :: rest, eq, row =>
    match evalConstraint env jim tfs jmap c with
    | .error e => .error e
    | .ok c' =>
      let eq1 : LinearEquationSystem :=
        { W_row := setSeg eq.W_row row (effWeightRow c')
          A := setSeg eq.A row c'.A
          y_ref := setSeg eq.y_ref row c'.y_ref_root }
      match assembleLevel env jim tfs jmap rest eq1 (row + c'.no_variables) with
      | .error e => .error e
      | .ok (eqf, cs', rowf) => .ok (eqf, c' :: cs', rowf)

/-- The priority levels the outer loop visits (`prio < n_prios_`, reading
`constraint_vector_[prio]` and `n_constraints_per_prio_[prio]`). -/
def prioPairs (s : WbcState) : List (List ExtendedConstraint × Nat) :=
  (List.range s.n_prios).map
    (fun p => (s.constraint_vector.getD p [], s.n_constraints_per_prio.getD p 0))

/-- The outer priority loop (lines 204-314): size each level's system and
fill it. -/
def assemblePrios (env : Env) (jim : List (String × Nat)) (tfs : TaskFrameMap)
    (jmap : List (String × List Twist)) (bigN : Nat) :
    List (List ExtendedConstraint × Nat) →
    Except WbcError (List LinearEquationSystem × List (List ExtendedConstraint))
  | [] => .ok ([], [])
  | (level, nvp) :: rest =>
    match assembleLevel env jim tfs jmap level (lesResize nvp bigN) 0 with
    | .error e => .error e
    | .ok (eq, level', _) =>
      match assemblePrios env jim tfs jmap bigN rest with
      | .error e => .error e
      | .ok (eqs, levels') => .ok (eq :: eqs, level' :: levels')

/-- `WbcVelocity::prepareEqSystem(task_frames, equations)` (lines 163-315):
reject when not configured; reject when a required task frame is missing
from the input (before any mutation of the registry or the equation
systems); splice the supplied Jacobians into the registry; then assemble one
linear system per priority level.  Returns the mutated state and the
equation systems. -/
def prepareEqSystem (env : Env) (s : WbcState) (tfs : TaskFrameMap) :
    Except WbcError (WbcState × List LinearEquationSystem) :=
  if ¬ s.configured then .error .notConfigured
  else if s.task_frame_ids.any (fun n => (mapFind? tfs n).isNone) then
    .error .incompleteTaskFrameInput
  else
    match updateJacMap s.joint_index_map s.jac_map tfs with
    | .error e => .error e
    | .ok jmap =>
      match assemblePrios env s.joint_index_map tfs jmap s.no_robot_joints (prioPairs s) with
      | .error e => .error e
      | .ok (eqs, levels') =>
        .ok ({ s with
                jac_map := jmap
                constraint_vector := levels' ++ s.constraint_vector.drop s.n_prios },
             eqs)

/-! ### Introspection (lines 317-336) -/

/-- The body of `WbcVelocity::jointNames()` on a joint index map: allocate a
vector of `size()` empty strings and write `joint_names[it->second] =
it->first` for every map entry. -/
def jointNamesOf (m : List (String × Nat)) : List String :=
  m.foldl (fun acc p => acc.set p.2 p.1) (List.replicate m.length "")

/-- `WbcVelocity::jointNames()` (lines 317-322). -/
def jointNames (s : WbcState) : List String := jointNamesOf s.joint_index_map

/-- `WbcVelocity::getConstraintVector(constraints)` (lines 324-336): size the
output to `n_prios_` and copy each priority level's constraints. -/
def getConstraintVector (s : WbcState) : List (List ExtendedConstraint) :=
  (List.range s.n_prios).map (fun p => s.constraint_vector.getD p [])

/-! ### The per-constraint pseudo-inverse at the typed 6×6 level

A second rendering of lines 244-261, with sizes in the types, used to state
the algebraic properties of the pseudo-inverse post-processing and of the
task-matrix product.  The decomposition `(U, S, V)` is the output of the
external `KDL::svd_eigen_HH`. -/

/-- The singular-value processing loop (lines 247-253): each column of `U`
whose singular value is strictly positive is scaled by the reciprocal of
that singular value (`Uf.col(j) *= 1 / Sf(j)`); every other column is
zeroed. -/
def svdInvertCols (u : Matrix (Fin 6) (Fin 6) ℚ) (sv : Fin 6 → ℚ) :
    Matrix (Fin 6) (Fin 6) ℚ :=
  Matrix.of fun i j => if sv j > 0 then u i j * (1 / sv j) else 0

/-- `H = Vf * Uf.transpose()` (line 254) after the singular-value
processing. -/
def pinvH (u : Matrix (Fin 6) (Fin 6) ℚ) (sv : Fin 6 → ℚ)
    (v : Matrix (Fin 6) (Fin 6) ℚ) : Matrix (Fin 6) (Fin 6) ℚ :=
  v * (svdInvertCols u sv).transpose

/-- `H.block(0, 0, n_vars, 6)` (lines 260-261): the first `n_vars` rows of
`H`. -/
def subBlock (n : Nat) (hn : n ≤ 6) (h : Matrix (Fin 6) (Fin 6) ℚ) :
    Matrix (Fin n) (Fin 6) ℚ :=
  Matrix.of fun i j => h (Fin.castLE hn i) j

/-- The task-matrix computation (lines 260-261):
`A = H.block(0,0,n,6) * jac_tip.data - (H.block(0,0,n,6) * jac_root.data)`,
with the full-robot Jacobians as 6×N matrices. -/
def taskMatrixCart {bigN : Nat} (n : Nat) (hn : n ≤ 6)
    (h : Matrix (Fin 6) (Fin 6) ℚ)
    (jacTip jacRoot : Matrix (Fin 6) (Fin bigN) ℚ) : Matrix (Fin n) (Fin bigN) ℚ :=
  subBlock n hn h * jacTip - subBlock n hn h * jacRoot

/-! ### Helper notions used by the theorems -/

/-- The sequence of Eigen segment/block writes performed by the level loop,
as data: each pair carries the written segment and the row-offset advance. -/
def writeChain {α : Type} : List (List α × Nat) → List α → Nat → List α
  | [], l, _ => l
  | (seg, adv) :: rest, l, row => writeChain rest (setSeg l row seg) (row + adv)

/-- The priorities that occur in a configuration, in ascending order (used
to state the grouping property of `configure`). -/
def presentPrios (config : List ConstraintConfig) : List Nat :=
  (List.range ((maxPrio config).toNat + 1)).filter
    (fun p => config.any (fun c => c.priority = (p : Int)))

/-! ### Concrete instances used by the witnesses -/

def dummySvd : List (List ℚ) → List (List ℚ) × List ℚ × List (List ℚ) :=
  fun _ => ([], [], [])

def envS : Env := ⟨0, dummySvd⟩

def envT : Env := ⟨5, dummySvd⟩

/-- A Joint constraint on joint `j2` of a two-joint robot, priority 0,
weight 1, no timeout. -/
def cfgS : ConstraintConfig := ⟨"c1", 0, .jnt, "", "", "", ["j2"], [1], 0⟩

/-- A Joint constraint on `j1`, priority 0, weight 2, timeout 1 second. -/
def cfgT : ConstraintConfig := ⟨"c2", 0, .jnt, "", "", "", ["j1"], [2], 1⟩

/-- A Joint constraint on `j2`, used for the zero-activation scenario. -/
def cfgZ : ConstraintConfig := ⟨"c3", 0, .jnt, "", "", "", ["j2"], [1], 0⟩

/-- A specification with an invalid (negative) priority. -/
def badC : ConstraintConfig := ⟨"cb", -1, .jnt, "", "", "", ["j1"], [1], 0⟩

/-- A Cartesian constraint between frames `r` and `t` with reference frame
`rf`. -/
def cartC : ConstraintConfig := ⟨"cc", 0, .cart, "r", "t", "rf", [], [1, 1, 1, 1, 1, 1], 0⟩

def cfgE0 : ConstraintConfig := ⟨"a", 0, .jnt, "", "", "", ["j1"], [1], 0⟩

def cfgE1 : ConstraintConfig := ⟨"b", 0, .jnt, "", "", "", ["j1"], [1], 0⟩

def cfgE3 : ConstraintConfig := ⟨"d", 3, .jnt, "", "", "", ["j1"], [1], 0⟩

/-- The spec's §8 scenario: 2-joint robot, one Joint constraint on `j2`,
reference 1/2, activation 1. -/
def sS : WbcState :=
  setActivation
    (setReference ((configure initState [cfgS] ["j1", "j2"]).1) "c1" [1/2] 0)
    "c1" 1

def jimS : List (String × Nat) := buildJointIndexMap ["j1", "j2"]

def cS : ExtendedConstraint :=
  { mkExtendedConstraint cfgS ["j1", "j2"] with y_ref := [1/2], activation := 1 }

def cS' : ExtendedConstraint :=
  match evalConstraint envS jimS [] [] cS with
  | .ok c => c
  | .error _ => cS

/-- Two active priority-0 Joint constraints; `c2` has timeout 1 and its last
reference write at time 0, so it is timed out at `now = 5`. -/
def sT : WbcState :=
  setActivation
    (setReference
      (setActivation
        (setReference ((configure initState [cfgS, cfgT] ["j1", "j2"]).1) "c1" [1/2] 0)
        "c1" 1)
      "c2" [3] 0)
    "c2" 1

def prepT : Except WbcError (WbcState × List LinearEquationSystem) :=
  prepareEqSystem envT sT []

def sT' : WbcState :=
  match prepT with
  | .ok r => r.1
  | .error _ => sT

def eqsT : List LinearEquationSystem :=
  match prepT with
  | .ok r => r.2
  | .error _ => []

/-- A Joint constraint whose caller-set reference is 7 but whose activation
is zero at assembly time. -/
def sZ : WbcState :=
  setActivation
    (setReference ((configure initState [cfgZ] ["j1", "j2"]).1) "c3" [7] 0)
    "c3" 0

def prepZ : Except WbcError (WbcState × List LinearEquationSystem) :=
  prepareEqSystem envS sZ []

def sZ' : WbcState :=
  match prepZ with
  | .ok r => r.1
  | .error _ => sZ

def eqsZ : List LinearEquationSystem :=
  match prepZ with
  | .ok r => r.2
  | .error _ => []

/-- A successfully configured state followed by a failing reconfiguration
(invalid priority). -/
def sA : WbcState := (configure initState [cfgS] ["j1", "j2"]).1

def sB : WbcState := (configure sA [badC] ["j1", "j2"]).1

/-- A configured state with one Cartesian constraint, so that the task-frame
set {r, t, rf} is required at assembly time. -/
def sCart : WbcState := (configure initState [cartC] ["j1"]).1

/-- The identity pose. -/
def rootA : Frame := Frame.id

/-- A pose with identity orientation and translation (1, 0, 0). -/
def refA : Frame := ⟨Mat3.id, ⟨1, 0, 0⟩⟩

/-- The {0, 0, 3} priority example of the spec. -/
def cfgE : List ConstraintConfig := [cfgE0, cfgE1, cfgE3]

def sE : WbcState := (configure initState cfgE ["j1"]).1

/-! ## Helper lemmas -/

theorem setSeg_length {α : Type} (l seg : List α) (k : Nat)
    (h : k + seg.length ≤ l.length) : (setSeg l k seg).length = l.length := by
  simp only [setSeg, List.length_append, List.length_take, List.length_drop]
  omega

theorem writeChain_eq {α : Type} (pairs : List (List α × Nat)) :
    ∀ (l : List α) (row : Nat),
      (∀ p ∈ pairs, p.1.length = p.2) →
      row + (pairs.map Prod.snd).sum ≤ l.length →
      writeChain pairs l row =
        l.take row ++ (pairs.map Prod.fst).flatten ++
          l.drop (row + (pairs.map Prod.snd).sum) := by
  induction pairs with
  | nil =>
    intro l row _ _
    simp [writeChain, List.take_append_drop]
  | cons p rest ih =>
    obtain ⟨seg, adv⟩ := p
    intro l row hlen hle
    have hseg : seg.length = adv := hlen (seg, adv) (by simp)
    simp only [List.map_cons, List.sum_cons] at hle
    have hrowadv : row + adv ≤ l.length := by omega
    have hrow : row ≤ l.length := by omega
    have hlenpre : (l.take row ++ seg).length = row + adv := by
      simp only [List.length_append, List.length_take]
      omega
    have hsplit : setSeg l row seg = (l.take row ++ seg) ++ l.drop (row + adv) := by
      simp [setSeg, hseg, List.append_assoc]
    have hl1len : (setSeg l row seg).length = l.length :=
      setSeg_length l seg row (by omega)
    have hih := ih (setSeg l row seg) (row + adv)
      (fun q hq => hlen q (List.mem_cons_of_mem _ hq)) (by omega)
    rw [writeChain, hih]
    have htake : (setSeg l row seg).take (row + adv) = l.take row ++ seg := by
      rw [hsplit]
      exact List.take_left' hlenpre
    have hdropbase : (setSeg l row seg).drop (row + adv) = l.drop (row + adv) := by
      rw [hsplit]
      exact List.drop_left' hlenpre
    have hdrop : (setSeg l row seg).drop (row + adv + (rest.map Prod.snd).sum) =
        l.drop (row + (adv + (rest.map Prod.snd).sum)) := by
      rw [← List.drop_drop, hdropbase, List.drop_drop]
      congr 1
      omega
    rw [htake, hdrop]
    simp [List.append_assoc]

theorem foldlSet_length {β : Type} (entries : List (β × Nat)) :
    ∀ l : List β, (entries.foldl (fun acc p => acc.set p.2 p.1) l).length = l.length := by
  induction entries with
  | nil => intro l; rfl
  | cons p rest ih =>
    intro l
    simp only [List.foldl_cons]
    rw [ih]
    exact List.length_set ..

theorem foldlSet_getElem?_of_not_mem {β : Type} (entries : List (β × Nat)) :
    ∀ (l : List β) (i : Nat), (∀ p ∈ entries, p.2 ≠ i) →
      (entries.foldl (fun acc p => acc.set p.2 p.1) l)[i]? = l[i]? := by
  induction entries with
  | nil => intro l i _; rfl
  | cons p rest ih =>
    intro l i hne
    simp only [List.foldl_cons]
    rw [ih _ _ (fun q hq => hne q (List.mem_cons_of_mem _ hq))]
    exact List.getElem?_set_ne (hne p (List.mem_cons_self _ _))

theorem foldlSet_getElem?_of_mem {β : Type} (entries : List (β × Nat)) :
    ∀ (l : List β) (i : Nat) (b : β),
      (entries.map Prod.snd).Nodup → (b, i) ∈ entries → i < l.length →
      (entries.foldl (fun acc p => acc.set p.2 p.1) l)[i]? = some b := by
  induction entries with
  | nil => intro l i b _ hmem _; cases hmem
  | cons p rest ih =>
    intro l i b hnd hmem hi
    simp only [List.map_cons, List.nodup_cons] at hnd
    simp only [List.foldl_cons]
    rcases List.mem_cons.1 hmem with heq | hmem'
    · have hp2 : p.2 = i := by rw [← heq]
      have hp1 : p.1 = b := by rw [← heq]
      have hrest : ∀ q ∈ rest, q.2 ≠ i := by
        intro q hq hqi
        exact hnd.1 (hp2 ▸ hqi ▸ List.mem_map_of_mem Prod.snd hq)
      rw [foldlSet_getElem?_of_not_mem rest _ i hrest, hp2, hp1]
      exact List.getElem?_set_self hi
    · apply ih _ _ _ hnd.2 hmem'
      rw [List.length_set]
      exact hi

theorem mapInsert_perm {α : Type} (m : List (String × α)) (k : String) (v : α)
    (hk : ∀ p ∈ m, p.1 ≠ k) : (mapInsert m k v).Perm ((k, v) :: m) := by
  induction m with
  | nil => exact .refl _
  | cons q rest ih =>
    obtain ⟨k', v'⟩ := q
    simp only [mapInsert]
    split
    · exact .refl _
    · split
      · rename_i heq
        exact absurd heq.symm (hk (k', v') (List.mem_cons_self _ _))
      · exact .trans
          (.cons _ (ih (fun p hp => hk p (List.mem_cons_of_mem _ hp))))
          (.swap _ _ _)

theorem buildJointIndexMapAux_perm (jn : List String) :
    ∀ (i : Nat) (m : List (String × Nat)),
      jn.Nodup → (∀ n ∈ jn, ∀ p ∈ m, p.1 ≠ n) →
      (buildJointIndexMapAux jn i m).Perm
        ((jn.enumFrom i).map (fun p => (p.2, p.1)) ++ m) := by
  induction jn with
  | nil =>
    intro i m _ _
    simp [buildJointIndexMapAux]
  | cons name rest ih =>
    intro i m hnd hfresh
    simp only [buildJointIndexMapAux]
    have h1 : (mapInsert m name i).Perm ((name, i) :: m) :=
      mapInsert_perm m name i (fun p hp => hfresh name (List.mem_cons_self _ _) p hp)
    have hnd' := List.nodup_cons.1 hnd
    have h2 : ∀ n ∈ rest, ∀ p ∈ mapInsert m name i, p.1 ≠ n := by
      intro n hn p hp
      rcases List.mem_cons.1 (h1.mem_iff.1 hp) with heq | hmem
      · rw [heq]
        intro hc
        have hc' : name = n := hc
        subst hc'
        exact hnd'.1 hn
      · exact hfresh n (List.mem_cons_of_mem _ hn) p hmem
    have h3 := ih (i + 1) (mapInsert m name i) hnd'.2 h2
    refine h3.trans ?_
    refine (List.Perm.append_left _ h1).trans ?_
    simp only [List.enumFrom, List.map_cons]
    exact List.perm_middle

theorem buildJointIndexMap_perm (jn : List String) (hnd : jn.Nodup) :
    (buildJointIndexMap jn).Perm (jn.enum.map (fun p => (p.2, p.1))) := by
  have h := buildJointIndexMapAux_perm jn 0 [] hnd (by simp)
  simpa [List.enum] using h

theorem jointNamesOf_build (jn : List String) (hnd : jn.Nodup) :
    jointNamesOf (buildJointIndexMap jn) = jn := by
  have hperm := buildJointIndexMap_perm jn hnd
  have hlen : (buildJointIndexMap jn).length = jn.length := by
    have h := hperm.length_eq
    simpa using h
  have hsnd : ((buildJointIndexMap jn).map Prod.snd).Nodup := by
    have h1 : (jn.enum.map (fun p : Nat × String => (p.2, p.1))).map Prod.snd =
        List.range jn.length := by
      rw [List.map_map]
      have h2 : (Prod.snd ∘ fun p : Nat × String => (p.2, p.1)) = Prod.fst := rfl
      rw [h2, List.enum_map_fst]
    exact (hperm.map Prod.snd).nodup_iff.2 (h1 ▸ List.nodup_range jn.length)
  apply List.ext_getElem?
  intro n
  unfold jointNamesOf
  by_cases hn : n < jn.length
  · have henum : (n, jn.get ⟨n, hn⟩) ∈ jn.enum :=
      List.mem_enum_iff_getElem?.2 (List.getElem?_eq_getElem hn)
    have hmem : (jn.get ⟨n, hn⟩, n) ∈ buildJointIndexMap jn :=
      hperm.mem_iff.2 (List.mem_map_of_mem (fun p : Nat × String => (p.2, p.1)) henum)
    rw [foldlSet_getElem?_of_mem _ _ _ _ hsnd hmem
      (by rw [List.length_replicate, hlen]; exact hn)]
    rw [List.getElem?_eq_getElem hn]
    simp [List.get_eq_getElem]
  · have h1 : (List.foldl (fun acc p => acc.set p.2 p.1)
        (List.replicate (buildJointIndexMap jn).length "")
        (buildJointIndexMap jn))[n]? = none := by
      apply List.getElem?_eq_none
      rw [foldlSet_length, List.length_replicate, hlen]
      omega
    have h2 : jn[n]? = none := List.getElem?_eq_none (by omega)
    rw [h1, h2]


theorem jntLoop_spec (jim : List (String × Nat)) (pairs : List (Nat × String)) :
    ∀ (c c' : ExtendedConstraint), jntLoop jim pairs c = .ok c' →
      c'.config = c.config ∧ c'.no_variables = c.no_variables ∧
      c'.weights = c.weights ∧ c'.activation = c.activation ∧
      c'.constraint_timed_out = c.constraint_timed_out ∧
      c'.y_ref = c.y_ref ∧ c'.last_ref_input = c.last_ref_input ∧
      (c'.y_ref_root = c.y_ref_root ∨ c'.y_ref_root = c.y_ref) ∧
      c'.A.length = c.A.length := by
  induction pairs with
  | nil =>
    intro c c' h
    have hc : c = c' := by
      simpa [jntLoop] using h
    subst hc
    simp
  | cons p rest ih =>
    obtain ⟨i, name⟩ := p
    intro c c' h
    simp only [jntLoop] at h
    cases hf : mapFind? jim name with
    | none => rw [hf] at h; cases h
    | some idx =>
      rw [hf] at h
      have hmid := ih _ _ h
      simp only [setEntry, List.length_set] at hmid
      refine ⟨hmid.1, hmid.2.1, hmid.2.2.1, hmid.2.2.2.1, hmid.2.2.2.2.1,
        hmid.2.2.2.2.2.1, hmid.2.2.2.2.2.2.1, ?_, hmid.2.2.2.2.2.2.2.2⟩
      rcases hmid.2.2.2.2.2.2.2.1 with h1 | h1
      · right
        exact h1
      · right
        exact h1

theorem evalCartesian_fields (env : Env) (tfs : TaskFrameMap)
    (jmap : List (String × List Twist)) (c : ExtendedConstraint) :
    (evalCartesian env tfs jmap c).config = c.config ∧
    (evalCartesian env tfs jmap c).no_variables = c.no_variables ∧
    (evalCartesian env tfs jmap c).weights = c.weights ∧
    (evalCartesian env tfs jmap c).activation = c.activation ∧
    (evalCartesian env tfs jmap c).constraint_timed_out = c.constraint_timed_out ∧
    (evalCartesian env tfs jmap c).y_ref = c.y_ref ∧
    (evalCartesian env tfs jmap c).last_ref_input = c.last_ref_input ∧
    (evalCartesian env tfs jmap c).y_ref_root =
      refTwistCode ((mapFind? tfs c.config.root).getD defaultTaskFrame).pose
        ((mapFind? tfs c.config.ref_frame).getD defaultTaskFrame).pose c.y_ref := by
  constructor
  · rfl
  · exact ⟨rfl, rfl, rfl, rfl, rfl, rfl, rfl⟩

theorem evalConstraint_spec (env : Env) (jim : List (String × Nat))
    (tfs : TaskFrameMap) (jmap : List (String × List Twist))
    (c c' : ExtendedConstraint)
    (h : evalConstraint env jim tfs jmap c = .ok c') :
    c'.config = c.config ∧ c'.no_variables = c.no_variables ∧
    c'.weights = c.weights ∧ c'.activation = c.activation ∧
    c'.constraint_timed_out = timeoutFlag env c ∧
    c'.last_ref_input = c.last_ref_input ∧
    (c.y_ref.length = c.no_variables → c.y_ref_root.length = c.no_variables →
      (c.config.ctype = .cart → c.no_variables = 6) →
      c'.y_ref.length = c.no_variables ∧ c'.y_ref_root.length = c.no_variables) ∧
    (c.activation = 0 → (∀ x ∈ c'.y_ref, x = 0) ∧ (∀ x ∈ c'.y_ref_root, x = 0)) := by
  unfold evalConstraint at h
  cases hct : c.config.ctype with
  | cart =>
    simp only [hct] at h
    obtain ⟨-, -, -, -, -, -, -, e8⟩ := evalCartesian_fields env tfs jmap
      { c with constraint_timed_out := timeoutFlag env c }
    split at h
    · rename_i hact
      have hact' : c.activation = 0 := hact
      injection h with h
      subst h
      refine ⟨rfl, rfl, rfl, rfl, rfl, rfl, ?_, ?_⟩
      · intro hy _ hcart
        constructor
        · simp only [List.length_map]
          exact hy
        · simp only [List.length_map, e8, refTwistCode, listOfTwist,
            List.length_cons, List.length_nil]
          have h6 := hcart rfl
          omega
      · intro _
        refine ⟨?_, ?_⟩ <;>
          · intro x hx
            rcases List.mem_map.1 hx with ⟨y, _, hy⟩
            exact hy.symm
    · rename_i hact
      have hact' : ¬ c.activation = 0 := hact
      injection h with h
      subst h
      refine ⟨rfl, rfl, rfl, rfl, rfl, rfl, ?_, fun hz => absurd hz hact'⟩
      intro hy _ hcart
      refine ⟨hy, ?_⟩
      rw [e8]
      simp only [refTwistCode, listOfTwist, List.length_cons, List.length_nil]
      have h6 := hcart rfl
      omega
  | jnt =>
    simp only [hct] at h
    cases hj : jntLoop jim c.config.joint_names.enum
        { c with constraint_timed_out := timeoutFlag env c } with
    | error e => rw [hj] at h; cases h
    | ok c2 =>
      rw [hj] at h
      obtain ⟨f1, f2, f3, f4, f5, f6, f7, f8, _⟩ := jntLoop_spec _ _ _ _ hj
      have e1 : c2.config = c.config := f1
      have e2 : c2.no_variables = c.no_variables := f2
      have e3 : c2.weights = c.weights := f3
      have e4 : c2.activation = c.activation := f4
      have e5 : c2.constraint_timed_out = timeoutFlag env c := f5
      have e6 : c2.y_ref = c.y_ref := f6
      have e7 : c2.last_ref_input = c.last_ref_input := f7
      have e8 : c2.y_ref_root = c.y_ref_root ∨ c2.y_ref_root = c.y_ref := f8
      simp only [] at h
      split at h
      · rename_i hact
        have hact' : c.activation = 0 := by
          have hact2 : c2.activation = 0 := hact
          rw [← e4]
          exact hact2
        injection h with h
        subst h
        refine ⟨e1, e2, e3, e4, e5, e7, ?_, ?_⟩
        · intro hy hyr _
          constructor
          · simp only [List.length_map, e6]
            exact hy
          · simp only [List.length_map]
            rcases e8 with h8 | h8 <;> rw [h8]
            · exact hyr
            · exact hy
        · intro _
          refine ⟨?_, ?_⟩ <;>
            · intro x hx
              rcases List.mem_map.1 hx with ⟨y, _, hy⟩
              exact hy.symm
      · rename_i hact
        have hact' : ¬ c.activation = 0 := by
          intro hz
          exact hact (show c2.activation = 0 by rw [e4]; exact hz)
        injection h with h
        subst h
        refine ⟨e1, e2, e3, e4, e5, e7, ?_, fun hz => absurd hz hact'⟩
        intro hy hyr _
        constructor
        · rw [e6]
          exact hy
        · rcases e8 with h8 | h8 <;> rw [h8]
          · exact hyr
          · exact hy

theorem timeoutFlag_iff (env : Env) (c : ExtendedConstraint) :
    (if timeoutFlag env c then (0 : ℚ) else 1) =
      (if c.config.timeout > 0 ∧ env.now - c.last_ref_input > c.config.timeout
        then (0 : ℚ) else 1) := by
  unfold timeoutFlag
  by_cases h1 : c.config.timeout > 0
  · by_cases h2 : env.now - c.last_ref_input > c.config.timeout
    · simp [h1, h2]
    · simp [h1, h2]
  · simp [h1]

theorem effWeightRow_eval (env : Env) (jim : List (String × Nat))
    (tfs : TaskFrameMap) (jmap : List (String × List Twist))
    (c c' : ExtendedConstraint)
    (h : evalConstraint env jim tfs jmap c = .ok c') :
    effWeightRow c' =
      c.weights.map (fun w => w * c.activation *
        (if c.config.timeout > 0 ∧ env.now - c.last_ref_input > c.config.timeout
          then 0 else 1)) := by
  obtain ⟨-, -, hw, ha, ht, -, -, -⟩ := evalConstraint_spec env jim tfs jmap c c' h
  unfold effWeightRow
  rw [hw, ha, ht]
  rw [timeoutFlag_iff]

theorem forall₂_mem_right {γ δ : Type} {r : γ → δ → Prop} :
    ∀ {l : List γ} {l' : List δ}, List.Forall₂ r l l' → ∀ b ∈ l', ∃ a ∈ l, r a b := by
  intro l l' h
  induction h with
  | nil => intro b hb; cases hb
  | cons hab _ ih =>
    intro b hb
    rcases List.mem_cons.1 hb with heq | hmem
    · subst heq
      exact ⟨_, List.mem_cons_self _ _, hab⟩
    · rcases ih b hmem with ⟨a, ha, har⟩
      exact ⟨a, List.mem_cons_of_mem _ ha, har⟩

theorem forall₂_map_eq {γ δ ε : Type} {r : γ → δ → Prop} (f : γ → ε) (g : δ → ε) :
    ∀ {l : List γ} {l' : List δ}, List.Forall₂ r l l' →
      (∀ a b, r a b → g b = f a) → l'.map g = l.map f := by
  intro l l' h
  induction h with
  | nil => intro _; rfl
  | cons hab _ ih =>
    intro hpt
    simp only [List.map_cons]
    rw [hpt _ _ hab, ih hpt]

theorem assembleLevel_ok (env : Env) (jim : List (String × Nat))
    (tfs : TaskFrameMap) (jmap : List (String × List Twist))
    (cs : List ExtendedConstraint) :
    ∀ (eq : LinearEquationSystem) (row : Nat) (eqf : LinearEquationSystem)
      (cs' : List ExtendedConstraint) (rowf : Nat),
      assembleLevel env jim tfs jmap cs eq row = .ok (eqf, cs', rowf) →
      List.Forall₂ (fun c c' => evalConstraint env jim tfs jmap c = .ok c') cs cs' ∧
      eqf.W_row =
        writeChain (cs'.map (fun c' => (effWeightRow c', c'.no_variables))) eq.W_row row ∧
      eqf.y_ref =
        writeChain (cs'.map (fun c' => (c'.y_ref_root, c'.no_variables))) eq.y_ref row ∧
      eqf.A = writeChain (cs'.map (fun c' => (c'.A, c'.no_variables))) eq.A row := by
  induction cs with
  | nil =>
    intro eq row eqf cs' rowf h
    simp only [assembleLevel] at h
    injection h with h
    rw [Prod.ext_iff] at h
    obtain ⟨h1, h2⟩ := h
    rw [Prod.ext_iff] at h2
    obtain ⟨h2, _⟩ := h2
    subst h1
    simp only at h2
    subst h2
    exact ⟨.nil, rfl, rfl, rfl⟩
  | cons c rest ih =>
    intro eq row eqf cs' rowf h
    simp only [assembleLevel] at h
    cases he : evalConstraint env jim tfs jmap c with
    | error e => rw [he] at h; cases h
    | ok c1 =>
      rw [he] at h
      simp only [] at h
      cases hr : assembleLevel env jim tfs jmap rest
          { W_row := setSeg eq.W_row row (effWeightRow c1),
            A := setSeg eq.A row c1.A,
            y_ref := setSeg eq.y_ref row c1.y_ref_root }
          (row + c1.no_variables) with
      | error e => rw [hr] at h; cases h
      | ok r =>
        obtain ⟨eq2, cs2, row2⟩ := r
        rw [hr] at h
        injection h with h
        rw [Prod.ext_iff] at h
        obtain ⟨h1, h2⟩ := h
        rw [Prod.ext_iff] at h2
        obtain ⟨h2, _⟩ := h2
        simp only at h1 h2
        subst h1
        subst h2
        obtain ⟨ha, hb, hc, hd⟩ := ih _ _ _ _ _ hr
        refine ⟨.cons he ha, ?_, ?_, ?_⟩
        · simpa [writeChain] using hb
        · simpa [writeChain] using hc
        · simpa [writeChain] using hd

theorem assemblePrios_ok (env : Env) (jim : List (String × Nat))
    (tfs : TaskFrameMap) (jmap : List (String × List Twist)) (bigN : Nat)
    (pairs : List (List ExtendedConstraint × Nat)) :
    ∀ (eqs : List LinearEquationSystem) (levels' : List (List ExtendedConstraint)),
      assemblePrios env jim tfs jmap bigN pairs = .ok (eqs, levels') →
      eqs.length = pairs.length ∧ levels'.length = pairs.length ∧
      ∀ i (hi : i < pairs.length),
        ∃ rowf, assembleLevel env jim tfs jmap (pairs.get ⟨i, hi⟩).1
            (lesResize (pairs.get ⟨i, hi⟩).2 bigN) 0 =
          .ok (eqs.getD i ⟨[], [], []⟩, levels'.getD i [], rowf) := by
  induction pairs with
  | nil =>
    intro eqs levels' h
    simp only [assemblePrios] at h
    injection h with h
    rw [Prod.ext_iff] at h
    obtain ⟨h1, h2⟩ := h
    simp only at h1 h2
    subst h1
    subst h2
    exact ⟨rfl, rfl, fun i hi => absurd hi (by simp)⟩
  | cons p rest ih =>
    obtain ⟨level, nvp⟩ := p
    intro eqs levels' h
    simp only [assemblePrios] at h
    cases h1 : assembleLevel env jim tfs jmap level (lesResize nvp bigN) 0 with
    | error e => rw [h1] at h; cases h
    | ok r1 =>
      obtain ⟨eq1, level1, row1⟩ := r1
      rw [h1] at h
      simp only [] at h
      cases h2 : assemblePrios env jim tfs jmap bigN rest with
      | error e => rw [h2] at h; cases h
      | ok r2 =>
        obtain ⟨eqs2, levels2⟩ := r2
        rw [h2] at h
        injection h with h
        rw [Prod.ext_iff] at h
        obtain ⟨ha, hb⟩ := h
        simp only at ha hb
        subst ha
        subst hb
        obtain ⟨g1, g2, g3⟩ := ih _ _ h2
        refine ⟨by simp [g1], by simp [g2], ?_⟩
        intro i hi
        cases i with
        | zero => exact ⟨row1, by simpa using h1⟩
        | succ j =>
          have hj : j < rest.length := by
            simpa using hi
          rcases g3 j hj with ⟨rowf, hf⟩
          exact ⟨rowf, by simpa using hf⟩

theorem prepareEqSystem_ok_elim (env : Env) (s : WbcState) (tfs : TaskFrameMap)
    (s' : WbcState) (eqs : List LinearEquationSystem)
    (h : prepareEqSystem env s tfs = .ok (s', eqs)) :
    s.configured = true ∧
    ∃ jmap levels',
      updateJacMap s.joint_index_map s.jac_map tfs = .ok jmap ∧
      assemblePrios env s.joint_index_map tfs jmap s.no_robot_joints (prioPairs s) =
        .ok (eqs, levels') ∧
      s' = { s with
              jac_map := jmap
              constraint_vector := levels' ++ s.constraint_vector.drop s.n_prios } := by
  unfold prepareEqSystem at h
  split at h
  · cases h
  · rename_i hconf
    have hconf' : s.configured = true := not_not.mp hconf
    split at h
    · cases h
    · cases hu : updateJacMap s.joint_index_map s.jac_map tfs with
      | error e => rw [hu] at h; cases h
      | ok jmap =>
        rw [hu] at h
        simp only [] at h
        cases ha : assemblePrios env s.joint_index_map tfs jmap s.no_robot_joints
            (prioPairs s) with
        | error e => rw [ha] at h; cases h
        | ok r =>
          obtain ⟨eqs1, levels1⟩ := r
          rw [ha] at h
          injection h with h
          rw [Prod.ext_iff] at h
          obtain ⟨h1, h2⟩ := h
          simp only at h1 h2
          subst h2
          exact ⟨hconf', jmap, levels1, rfl, ha, h1.symm⟩

theorem prioPairs_get (s : WbcState) (prio : Nat) (hp : prio < (prioPairs s).length) :
    (prioPairs s).get ⟨prio, hp⟩ =
      (s.constraint_vector.getD prio [], s.n_constraints_per_prio.getD prio 0) := by
  simp [prioPairs, List.get_eq_getElem]

theorem prioPairs_length (s : WbcState) : (prioPairs s).length = s.n_prios := by
  simp [prioPairs]

theorem getD_append_left {γ : Type} (l1 l2 : List γ) (i : Nat) (d : γ)
    (h : i < l1.length) : (l1 ++ l2).getD i d = l1.getD i d := by
  rw [List.getD_eq_getElem?_getD, List.getD_eq_getElem?_getD,
    List.getElem?_append_left h]

theorem prepareEq_level_spec (env : Env) (s : WbcState) (tfs : TaskFrameMap)
    (s' : WbcState) (eqs : List LinearEquationSystem) (prio : Nat)
    (h : prepareEqSystem env s tfs = .ok (s', eqs))
    (hprio : prio < s.n_prios) :
    ∃ jmap,
      List.Forall₂ (fun c c' => evalConstraint env s.joint_index_map tfs jmap c = .ok c')
        (s.constraint_vector.getD prio []) (s'.constraint_vector.getD prio []) ∧
      (eqs.getD prio ⟨[], [], []⟩).W_row =
        writeChain ((s'.constraint_vector.getD prio []).map
            (fun c' => (effWeightRow c', c'.no_variables)))
          (List.replicate (s.n_constraints_per_prio.getD prio 0) 0) 0 ∧
      (eqs.getD prio ⟨[], [], []⟩).y_ref =
        writeChain ((s'.constraint_vector.getD prio []).map
            (fun c' => (c'.y_ref_root, c'.no_variables)))
          (List.replicate (s.n_constraints_per_prio.getD prio 0) 0) 0 := by
  obtain ⟨-, jmap, levels', hu, ha, hs'⟩ := prepareEqSystem_ok_elim env s tfs s' eqs h
  obtain ⟨hlen1, hlen2, hget⟩ := assemblePrios_ok env s.joint_index_map tfs jmap
    s.no_robot_joints (prioPairs s) eqs levels' ha
  have hp : prio < (prioPairs s).length := by
    rw [prioPairs_length]
    exact hprio
  rcases hget prio hp with ⟨rowf, hlev⟩
  rw [prioPairs_get] at hlev
  obtain ⟨hforall, hW, hy, -⟩ := assembleLevel_ok env s.joint_index_map tfs jmap
    _ _ _ _ _ _ hlev
  have hvec : s'.constraint_vector.getD prio [] = levels'.getD prio [] := by
    rw [hs']
    exact getD_append_left _ _ _ _ (by rw [hlen2, prioPairs_length]; exact hprio)
  refine ⟨jmap, ?_, ?_, ?_⟩
  · rw [hvec]
    exact hforall
  · rw [hvec]
    exact hW
  · rw [hvec]
    exact hy

/-- C3: For every constraint in every assembled cycle, the effective per-row
weight written into its priority level's weight vector equals configured
weight × activation × (0 if timed out else 1), where the constraint is timed
out exactly when its configured timeout is positive and the elapsed time
since its last reference update exceeds that timeout (so a non-positive
timeout never marks it timed out). -/
theorem prepareEq_weight_formula (env : Env) (s : WbcState) (tfs : TaskFrameMap)
    (s' : WbcState) (eqs : List LinearEquationSystem) (prio : Nat)
    (hok : prepareEqSystem env s tfs = .ok (s', eqs))
    (hprio : prio < s.n_prios)
    (hw : ∀ c ∈ s.constraint_vector.getD prio [], c.weights.length = c.no_variables)
    (hn : s.n_constraints_per_prio.getD prio 0 =
      ((s.constraint_vector.getD prio []).map (fun c => c.no_variables)).sum) :
    (eqs.getD prio ⟨[], [], []⟩).W_row =
      ((s.constraint_vector.getD prio []).map
        (fun c => c.weights.map (fun w => w * c.activation *
          (if c.config.timeout > 0 ∧ env.now - c.last_ref_input > c.config.timeout
            then 0 else 1)))).flatten := by
  obtain ⟨jmap, hforall, hW, -⟩ := prepareEq_level_spec env s tfs s' eqs prio hok hprio
  have hnv : (s'.constraint_vector.getD prio []).map (fun c' => c'.no_variables) =
      (s.constraint_vector.getD prio []).map (fun c => c.no_variables) :=
    forall₂_map_eq _ _ hforall (fun a b hab => (evalConstraint_spec _ _ _ _ _ _ hab).2.1)
  have hlens : ∀ p ∈ (s'.constraint_vector.getD prio []).map
      (fun c' => (effWeightRow c', c'.no_variables)), p.1.length = p.2 := by
    intro p hp
    rcases List.mem_map.1 hp with ⟨c', hc', hpc⟩
    subst hpc
    rcases forall₂_mem_right hforall c' hc' with ⟨a, ha, hab⟩
    obtain ⟨-, hnv2, hw2, -, -, -, -, -⟩ := evalConstraint_spec _ _ _ _ _ _ hab
    simp only [effWeightRow, List.length_map]
    rw [hw2, hnv2]
    exact hw a ha
  have hsum : (((s'.constraint_vector.getD prio []).map
      (fun c' => (effWeightRow c', c'.no_variables))).map Prod.snd).sum =
      s.n_constraints_per_prio.getD prio 0 := by
    rw [List.map_map]
    have hc : (Prod.snd ∘ fun c' : ExtendedConstraint =>
        (effWeightRow c', c'.no_variables)) = fun c' => c'.no_variables := rfl
    rw [hc, hnv, hn]
  rw [hW, writeChain_eq _ _ _ hlens (by rw [hsum]; simp)]
  rw [List.take_zero, Nat.zero_add, List.drop_eq_nil_of_le (by rw [hsum]; simp)]
  rw [List.nil_append, List.append_nil, List.map_map]
  have hfst : (Prod.fst ∘ fun c' : ExtendedConstraint =>
      (effWeightRow c', c'.no_variables)) = effWeightRow := rfl
  rw [hfst]
  congr 1
  exact forall₂_map_eq _ _ hforall
    (fun a b hab => effWeightRow_eval env _ tfs jmap a b hab)

/-- Witness for C3 at a concrete scenario: two active priority-0 Joint
constraints; at time 5, constraint `c2` (timeout 1 second, last reference at
time 0) is timed out, so its effective weight is 0 while `c1` keeps weight
1; the assembled weight row is [1, 0]. -/
theorem prepareEq_weight_formula_witness :
    (eqsT.getD 0 ⟨[], [], []⟩).W_row =
      ((sT.constraint_vector.getD 0 []).map
        (fun c => c.weights.map (fun w => w * c.activation *
          (if c.config.timeout > 0 ∧ envT.now - c.last_ref_input > c.config.timeout
            then 0 else 1)))).flatten ∧
    (eqsT.getD 0 ⟨[], [], []⟩).W_row = [1, 0] := by
  constructor
  · exact prepareEq_weight_formula envT sT [] sT' eqsT 0
      (by with_unfolding_all decide)
      (by with_unfolding_all decide)
      (by with_unfolding_all decide)
      (by with_unfolding_all decide)
  · with_unfolding_all decide

/-- C4: For every constraint whose activation equals zero at assembly time,
both the raw reference value and the root-frame reference value stored back
into the constraint are forced to zero, and (since the level's reference
vector is exactly the concatenation of the evaluated constraints' root-frame
reference values) the rows written into the priority level's system are
zero, regardless of any reference value a caller set earlier. -/
theorem prepareEq_zero_activation (env : Env) (s : WbcState) (tfs : TaskFrameMap)
    (s' : WbcState) (eqs : List LinearEquationSystem) (prio : Nat)
    (hok : prepareEqSystem env s tfs = .ok (s', eqs))
    (hprio : prio < s.n_prios)
    (hlen : ∀ c ∈ s.constraint_vector.getD prio [],
      c.y_ref.length = c.no_variables ∧ c.y_ref_root.length = c.no_variables ∧
      (c.config.ctype = .cart → c.no_variables = 6))
    (hn : s.n_constraints_per_prio.getD prio 0 =
      ((s.constraint_vector.getD prio []).map (fun c => c.no_variables)).sum) :
    (eqs.getD prio ⟨[], [], []⟩).y_ref =
      ((s'.constraint_vector.getD prio []).map (fun c' => c'.y_ref_root)).flatten ∧
    List.Forall₂
      (fun c c' => c.activation = 0 →
        (∀ x ∈ c'.y_ref, x = 0) ∧ (∀ x ∈ c'.y_ref_root, x = 0))
      (s.constraint_vector.getD prio []) (s'.constraint_vector.getD prio []) := by
  obtain ⟨jmap, hforall, -, hy⟩ := prepareEq_level_spec env s tfs s' eqs prio hok hprio
  have hnv : (s'.constraint_vector.getD prio []).map (fun c' => c'.no_variables) =
      (s.constraint_vector.getD prio []).map (fun c => c.no_variables) :=
    forall₂_map_eq _ _ hforall (fun a b hab => (evalConstraint_spec _ _ _ _ _ _ hab).2.1)
  have hlens : ∀ p ∈ (s'.constraint_vector.getD prio []).map
      (fun c' => (c'.y_ref_root, c'.no_variables)), p.1.length = p.2 := by
    intro p hp
    rcases List.mem_map.1 hp with ⟨c', hc', hpc⟩
    subst hpc
    rcases forall₂_mem_right hforall c' hc' with ⟨a, ha, hab⟩
    obtain ⟨-, hnv2, -, -, -, -, hl, -⟩ := evalConstraint_spec _ _ _ _ _ _ hab
    obtain ⟨h1, h2, h3⟩ := hlen a ha
    simp only []
    rw [hnv2]
    exact (hl h1 h2 h3).2
  have hsum : (((s'.constraint_vector.getD prio []).map
      (fun c' => (c'.y_ref_root, c'.no_variables))).map Prod.snd).sum =
      s.n_constraints_per_prio.getD prio 0 := by
    rw [List.map_map]
    have hc : (Prod.snd ∘ fun c' : ExtendedConstraint =>
        (c'.y_ref_root, c'.no_variables)) = fun c' => c'.no_variables := rfl
    rw [hc, hnv, hn]
  constructor
  · rw [hy, writeChain_eq _ _ _ hlens (by rw [hsum]; simp)]
    rw [List.take_zero, Nat.zero_add, List.drop_eq_nil_of_le (by rw [hsum]; simp)]
    rw [List.nil_append, List.append_nil, List.map_map]
    have hfst : (Prod.fst ∘ fun c' : ExtendedConstraint =>
        (c'.y_ref_root, c'.no_variables)) = fun c' => c'.y_ref_root := rfl
    rw [hfst]
  · exact hforall.imp
      (fun a b hab => (evalConstraint_spec _ _ _ _ _ _ hab).2.2.2.2.2.2.2)

/-- Witness for C4: a Joint constraint whose caller-set reference is 7 but
whose activation is 0 at assembly time yields the zero reference row [0],
and both stored reference vectors are zeroed. -/
theorem prepareEq_zero_activation_witness :
    ((eqsZ.getD 0 ⟨[], [], []⟩).y_ref =
      ((sZ'.constraint_vector.getD 0 []).map (fun c' => c'.y_ref_root)).flatten ∧
    List.Forall₂
      (fun c c' => c.activation = 0 →
        (∀ x ∈ c'.y_ref, x = 0) ∧ (∀ x ∈ c'.y_ref_root, x = 0))
      (sZ.constraint_vector.getD 0 []) (sZ'.constraint_vector.getD 0 [])) ∧
    (eqsZ.getD 0 ⟨[], [], []⟩).y_ref = [0] ∧
    (sZ.constraint_vector.getD 0 []).map (fun c => c.y_ref) = [[7]] := by
  refine ⟨?_, by with_unfolding_all decide, by with_unfolding_all decide⟩
  exact prepareEq_zero_activation envS sZ [] sZ' eqsZ 0
    (by with_unfolding_all decide)
    (by with_unfolding_all decide)
    (by with_unfolding_all decide)
    (by with_unfolding_all decide)

theorem jntLoop_A_untouched (jim : List (String × Nat)) (pairs : List (Nat × String)) :
    ∀ (c c' : ExtendedConstraint), jntLoop jim pairs c = .ok c' →
      ∀ i, (∀ p ∈ pairs, p.1 ≠ i) → c'.A.getD i [] = c.A.getD i [] := by
  induction pairs with
  | nil =>
    intro c c' h i _
    have hc : c = c' := by simpa [jntLoop] using h
    subst hc
    rfl
  | cons p rest ih =>
    obtain ⟨j, name⟩ := p
    intro c c' h i hni
    simp only [jntLoop] at h
    cases hf : mapFind? jim name with
    | none => rw [hf] at h; cases h
    | some idx =>
      rw [hf] at h
      rw [ih _ _ h i (fun q hq => hni q (List.mem_cons_of_mem _ hq))]
      show (setEntry c.A j idx 1).getD i [] = c.A.getD i []
      unfold setEntry
      simp only [List.getD_eq_getElem?_getD]
      rw [List.getElem?_set_ne (hni (j, name) (List.mem_cons_self _ _))]

theorem jntLoop_A_rows (jim : List (String × Nat)) (pairs : List (Nat × String)) :
    ∀ (c c' : ExtendedConstraint), jntLoop jim pairs c = .ok c' →
      (pairs.map Prod.fst).Nodup →
      ∀ i name idx, (i, name) ∈ pairs → mapFind? jim name = some idx →
        i < c.A.length → c'.A.getD i [] = (c.A.getD i []).set idx 1 := by
  induction pairs with
  | nil =>
    intro c c' _ _ i name idx hmem
    cases hmem
  | cons p rest ih =>
    obtain ⟨j, name0⟩ := p
    intro c c' h hnd i name idx hmem hfind hi
    simp only [jntLoop] at h
    cases hf : mapFind? jim name0 with
    | none => rw [hf] at h; cases h
    | some idx0 =>
      rw [hf] at h
      simp only [List.map_cons, List.nodup_cons] at hnd
      rcases List.mem_cons.1 hmem with heq | hmem'
      · have hij : i = j := congrArg Prod.fst heq
        have hname : name = name0 := congrArg Prod.snd heq
        subst hij
        subst hname
        have hidx : idx0 = idx := by
          rw [hfind] at hf
          injection hf with he
          exact he.symm
        subst hidx
        have hrest : ∀ q ∈ rest, q.1 ≠ i := by
          intro q hq hqi
          exact hnd.1 (hqi ▸ List.mem_map_of_mem Prod.fst hq)
        rw [jntLoop_A_untouched jim rest _ _ h i hrest]
        show (setEntry c.A i idx0 1).getD i [] = (c.A.getD i []).set idx0 1
        unfold setEntry
        rw [List.getD_eq_getElem?_getD, List.getElem?_set_self hi]
        rfl
      · have hij : j ≠ i := by
          intro hji
          exact hnd.1 (hji ▸ List.mem_map_of_mem Prod.fst hmem')
        have h2 := ih _ _ h hnd.2 i name idx hmem' hfind
          (by show i < (setEntry c.A j idx0 1).length
              unfold setEntry
              rw [List.length_set]
              exact hi)
        rw [h2]
        show ((setEntry c.A j idx0 1).getD i []).set idx 1 = (c.A.getD i []).set idx 1
        unfold setEntry
        simp only [List.getD_eq_getElem?_getD]
        rw [List.getElem?_set_ne hij]

theorem jntLoop_y_ref_root_assigned (jim : List (String × Nat))
    (pairs : List (Nat × String)) :
    ∀ (c c' : ExtendedConstraint), jntLoop jim pairs c = .ok c' → pairs ≠ [] →
      c'.y_ref_root = c.y_ref := by
  induction pairs with
  | nil =>
    intro c c' _ hne
    exact absurd rfl hne
  | cons p rest ih =>
    obtain ⟨j, name⟩ := p
    intro c c' h _
    simp only [jntLoop] at h
    cases hf : mapFind? jim name with
    | none => rw [hf] at h; cases h
    | some idx =>
      rw [hf] at h
      have h' : jntLoop jim rest
          { c with A := setEntry c.A j idx 1, y_ref_root := c.y_ref } = .ok c' := h
      by_cases hre : rest = []
      · subst hre
        simp only [jntLoop] at h'
        injection h' with h'
        rw [← h']
      · exact ih { c with A := setEntry c.A j idx 1, y_ref_root := c.y_ref } c' h' hre

theorem evalConstraint_jnt_elim (env : Env) (jim : List (String × Nat))
    (tfs : TaskFrameMap) (jmap : List (String × List Twist))
    (c c' : ExtendedConstraint) (hjnt : c.config.ctype = .jnt)
    (h : evalConstraint env jim tfs jmap c = .ok c') :
    ∃ c2, jntLoop jim c.config.joint_names.enum
        { c with constraint_timed_out := timeoutFlag env c } = .ok c2 ∧
      c'.A = c2.A ∧
      ((c.activation = 0 ∧ c'.y_ref = c2.y_ref.map (fun _ => 0) ∧
          c'.y_ref_root = c2.y_ref_root.map (fun _ => 0)) ∨
        (¬ c.activation = 0 ∧ c'.y_ref = c2.y_ref ∧ c'.y_ref_root = c2.y_ref_root)) := by
  unfold evalConstraint at h
  simp only [hjnt] at h
  cases hj : jntLoop jim c.config.joint_names.enum
      { c with constraint_timed_out := timeoutFlag env c } with
  | error e => rw [hj] at h; cases h
  | ok c2 =>
    rw [hj] at h
    simp only [] at h
    split at h
    · rename_i hact
      injection h with h
      subst h
      have hact' : c.activation = 0 := by
        have h4 : c2.activation = c.activation := (jntLoop_spec _ _ _ _ hj).2.2.2.1
        rw [← h4]
        exact hact
      exact ⟨c2, rfl, rfl, Or.inl ⟨hact', rfl, rfl⟩⟩
    · rename_i hact
      injection h with h
      subst h
      have hact' : ¬ c.activation = 0 := by
        intro hz
        have h4 : c2.activation = c.activation := (jntLoop_spec _ _ _ _ hj).2.2.2.1
        exact hact (show c2.activation = 0 by rw [h4]; exact hz)
      exact ⟨c2, rfl, rfl, Or.inr ⟨hact', rfl, rfl⟩⟩

/-- C5: For a Joint-type constraint whose task matrix starts zeroed, the
evaluated task matrix is a selection matrix — the row of the i-th listed
joint is zero except for a 1.0 at the column the joint index map assigns to
that joint — and the root-frame reference value equals the raw reference
value; moreover the spec's concrete scenario (2-joint robot, one Joint
constraint on j2, weight 1, reference 1/2, activation 1) assembles to
weight row [1], task matrix [[0, 1]] and reference [1/2]. -/
theorem joint_constraint_selection_matrix (env : Env) (jim : List (String × Nat))
    (tfs : TaskFrameMap) (jmap : List (String × List Twist)) (bigN : Nat)
    (c c' : ExtendedConstraint)
    (hjnt : c.config.ctype = .jnt)
    (hA : c.A = List.replicate c.no_variables (List.replicate bigN 0))
    (hok : evalConstraint env jim tfs jmap c = .ok c') :
    (∀ i name idx, (i, name) ∈ c.config.joint_names.enum →
      mapFind? jim name = some idx → i < c.no_variables →
      c'.A.getD i [] = (List.replicate bigN (0 : ℚ)).set idx 1) ∧
    (c.config.joint_names ≠ [] → c'.y_ref_root = c'.y_ref) ∧
    (prepareEqSystem envS sS []).toOption.map (fun r => r.2) =
      some [⟨[1], [[0, 1]], [1/2]⟩] := by
  obtain ⟨c2, hj, hA', hzero⟩ := evalConstraint_jnt_elim env jim tfs jmap c c' hjnt hok
  refine ⟨?_, ?_, by with_unfolding_all decide⟩
  · intro i name idx hmem hfind hi
    have hnd : ((c.config.joint_names.enum).map Prod.fst).Nodup := by
      rw [List.enum_map_fst]
      exact List.nodup_range _
    have hiA : i < ({ c with constraint_timed_out := timeoutFlag env c } :
        ExtendedConstraint).A.length := by
      show i < c.A.length
      rw [hA, List.length_replicate]
      exact hi
    have h2 := jntLoop_A_rows jim _ _ _ hj hnd i name idx hmem hfind hiA
    rw [hA', h2]
    show (c.A.getD i []).set idx 1 = _
    rw [hA]
    congr 1
    rw [List.getD_eq_getElem?_getD, List.getElem?_replicate_of_lt hi]
    rfl
  · intro hne
    have henne : c.config.joint_names.enum ≠ [] := by
      intro h0
      apply hne
      cases hl : c.config.joint_names with
      | nil => rfl
      | cons a as =>
        rw [hl] at h0
        simp [List.enum_cons] at h0
    have hy2 : c2.y_ref_root = c.y_ref :=
      jntLoop_y_ref_root_assigned jim c.config.joint_names.enum
        { c with constraint_timed_out := timeoutFlag env c } c2 hj henne
    have hy3 : c2.y_ref = c.y_ref := (jntLoop_spec _ _ _ _ hj).2.2.2.2.2.1
    rcases hzero with ⟨-, hyr, hyrr⟩ | ⟨-, hyr, hyrr⟩
    · rw [hyr, hyrr, hy2, hy3]
    · rw [hyr, hyrr, hy2, hy3]

/-- Witness for C5: the constraint of the spec's scenario evaluates to the
selection-matrix row [0, 1], equal raw and root-frame references, and the
assembled system {[1], [[0, 1]], [1/2]}. -/
theorem joint_constraint_selection_matrix_witness :
    ((∀ i name idx, (i, name) ∈ cS.config.joint_names.enum →
      mapFind? jimS name = some idx → i < cS.no_variables →
      cS'.A.getD i [] = (List.replicate 2 (0 : ℚ)).set idx 1) ∧
    (cS.config.joint_names ≠ [] → cS'.y_ref_root = cS'.y_ref) ∧
    (prepareEqSystem envS sS []).toOption.map (fun r => r.2) =
      some [⟨[1], [[0, 1]], [1/2]⟩]) ∧
    cS'.A = [[0, 1]] := by
  refine ⟨joint_constraint_selection_matrix envS jimS [] [] 2 cS cS'
    (by with_unfolding_all decide) (by with_unfolding_all decide)
    (by with_unfolding_all decide), by with_unfolding_all decide⟩

theorem maxPrio_fold_le (cfgs : List ConstraintConfig) :
    ∀ m : Int,
      m ≤ cfgs.foldl (fun acc c => if c.priority > acc then c.priority else acc) m ∧
      ∀ c ∈ cfgs, c.priority ≤
        cfgs.foldl (fun acc c => if c.priority > acc then c.priority else acc) m := by
  induction cfgs with
  | nil =>
    intro m
    exact ⟨le_refl m, fun c hc => absurd hc (by simp)⟩
  | cons d rest ih =>
    intro m
    simp only [List.foldl_cons]
    have hstep : m ≤ (if d.priority > m then d.priority else m) := by
      split <;> omega
    have hd : d.priority ≤ (if d.priority > m then d.priority else m) := by
      split <;> omega
    refine ⟨le_trans hstep (ih _).1, ?_⟩
    intro c hc
    rcases List.mem_cons.1 hc with heq | hmem
    · subst heq
      exact le_trans hd (ih _).1
    · exact (ih _).2 c hmem

theorem le_maxPrio (cfgs : List ConstraintConfig) :
    ∀ c ∈ cfgs, c.priority ≤ maxPrio cfgs :=
  (maxPrio_fold_le cfgs 0).2

theorem insertConstraints_vector (jn : List String) (cfgs : List ConstraintConfig) :
    ∀ (s s3 : WbcState) (b : Bool), insertConstraints jn cfgs s = (s3, b) →
      b = true → s3.constraint_vector = insertPure jn cfgs s.constraint_vector := by
  induction cfgs with
  | nil =>
    intro s s3 b h hb
    simp only [insertConstraints] at h
    injection h with h1 _
    subst h1
    rfl
  | cons cfg rest ih =>
    intro s s3 b h hb
    simp only [insertConstraints] at h
    split at h
    · injection h with _ h2
      subst h2
      cases hb
    · exact ih _ _ _ h hb

theorem insertConstraints_fields (jn : List String) (cfgs : List ConstraintConfig) :
    ∀ s : WbcState,
      (insertConstraints jn cfgs s).1.configured = s.configured ∧
      (insertConstraints jn cfgs s).1.joint_index_map = s.joint_index_map := by
  induction cfgs with
  | nil =>
    intro s
    exact ⟨rfl, rfl⟩
  | cons cfg rest ih =>
    intro s
    simp only [insertConstraints]
    split
    · exact ⟨rfl, rfl⟩
    · exact ih _

theorem insertPure_getD (jn : List String) (cfgs : List ConstraintConfig) :
    ∀ v : List (List ExtendedConstraint),
      (∀ c ∈ cfgs, c.priority.toNat < v.length) →
      (insertPure jn cfgs v).length = v.length ∧
      ∀ p : Nat, (insertPure jn cfgs v).getD p [] =
        v.getD p [] ++ (cfgs.filter (fun c => c.priority.toNat = p)).map
          (fun c => mkExtendedConstraint c jn) := by
  induction cfgs with
  | nil =>
    intro v _
    exact ⟨rfl, fun p => by simp [insertPure]⟩
  | cons cfg rest ih =>
    intro v hlt
    have hq : cfg.priority.toNat < v.length := hlt cfg (List.mem_cons_self _ _)
    have hlen1 : (pushToBucket v cfg.priority.toNat
        (mkExtendedConstraint cfg jn)).length = v.length := by
      unfold pushToBucket
      rw [List.length_set]
    obtain ⟨hlen, hget⟩ := ih (pushToBucket v cfg.priority.toNat
        (mkExtendedConstraint cfg jn))
      (fun c hc => by rw [hlen1]; exact hlt c (List.mem_cons_of_mem _ hc))
    constructor
    · simp only [insertPure]
      rw [hlen, hlen1]
    · intro p
      simp only [insertPure]
      rw [hget p]
      by_cases hp : cfg.priority.toNat = p
      · have h1 : (pushToBucket v cfg.priority.toNat
            (mkExtendedConstraint cfg jn)).getD p [] =
            v.getD p [] ++ [mkExtendedConstraint cfg jn] := by
          unfold pushToBucket
          subst hp
          rw [List.getD_eq_getElem?_getD, List.getElem?_set_self hq]
          rfl
        rw [h1, List.filter_cons_of_pos (by simp [hp]), List.map_cons,
          List.append_assoc]
        rfl
      · have h1 : (pushToBucket v cfg.priority.toNat
            (mkExtendedConstraint cfg jn)).getD p [] = v.getD p [] := by
          unfold pushToBucket
          simp only [List.getD_eq_getElem?_getD]
          rw [List.getElem?_set_ne hp]
        rw [h1, List.filter_cons_of_neg (by simp [hp])]

theorem configure_true_elim (s : WbcState) (cfgs : List ConstraintConfig)
    (jn : List String) (hok : (configure s cfgs jn).2 = true) :
    cfgs.any (fun c => c.priority < 0) = false ∧
    ∃ s3, insertConstraints jn cfgs (configureStage2 (configureStage1 s jn) cfgs) =
        (s3, true) ∧
      (configure s cfgs jn).1 = configureFinish s3 := by
  simp only [configure] at hok ⊢
  split at hok
  · exact absurd hok (by simp)
  · rename_i hbad
    cases hins : insertConstraints jn cfgs (configureStage2 (configureStage1 s jn) cfgs) with
    | mk s3 b =>
      cases b
      · rw [hins] at hok
        simp at hok
      · refine ⟨by simpa using hbad, s3, rfl, ?_⟩
        rw [if_neg hbad]

theorem eq_range_map_of_getD {γ : Type} (l : List γ) (n : Nat) (f : Nat → γ)
    (d : γ) (hlen : l.length = n) (hget : ∀ p, p < n → l.getD p d = f p) :
    l = (List.range n).map f := by
  apply List.ext_getElem?
  intro i
  by_cases hi : i < n
  · rw [List.getElem?_eq_getElem (by omega),
      List.getElem?_eq_getElem (by simp [hi])]
    have h1 := hget i hi
    rw [List.getD_eq_getElem?_getD, List.getElem?_eq_getElem (by omega)] at h1
    simp only [Option.getD_some] at h1
    simp [h1, hi]
  · rw [List.getElem?_eq_none (by omega), List.getElem?_eq_none (by simp; omega)]

/-- C6: After any successful configure(), the priority levels are exactly
the priorities that occur in the configuration, in strictly ascending order
with empty levels removed, and each level holds the constraints of its
priority in original configuration order (level p is the sublist of the
input filtered to priority p). -/
theorem configure_priority_grouping (s : WbcState) (cfgs : List ConstraintConfig)
    (jn : List String) (hok : (configure s cfgs jn).2 = true) :
    (configure s cfgs jn).1.constraint_vector.map (List.map (fun c => c.config)) =
      (presentPrios cfgs).map (fun p : Nat => cfgs.filter (fun c => c.priority = (p : Int))) ∧
    List.Pairwise (· < ·) (presentPrios cfgs) ∧
    (∀ p : Nat, p ∈ presentPrios cfgs ↔ ∃ c ∈ cfgs, c.priority = (p : Int)) ∧
    (∀ level ∈ (configure s cfgs jn).1.constraint_vector, level ≠ []) := by
  obtain ⟨hbad, s3, hins, hfin⟩ := configure_true_elim s cfgs jn hok
  have hnoneg : ∀ c ∈ cfgs, 0 ≤ c.priority := by
    intro c hc
    by_contra hneg
    push_neg at hneg
    have hany : cfgs.any (fun c => c.priority < 0) = true :=
      List.any_eq_true.2 ⟨c, hc, by simpa using hneg⟩
    rw [hbad] at hany
    cases hany
  have htn : ∀ c ∈ cfgs, ∀ p : Nat, (c.priority.toNat = p ↔ c.priority = (p : Int)) := by
    intro c hc p
    constructor
    · intro h
      rw [← h, Int.toNat_of_nonneg (hnoneg c hc)]
    · intro h
      rw [h, Int.toNat_ofNat]
  have hvec0 : s3.constraint_vector =
      insertPure jn cfgs (List.replicate ((maxPrio cfgs).toNat + 1) []) :=
    insertConstraints_vector jn cfgs _ _ _ hins rfl
  have hltall : ∀ c ∈ cfgs, c.priority.toNat <
      (List.replicate ((maxPrio cfgs).toNat + 1)
        ([] : List ExtendedConstraint)).length := by
    intro c hc
    rw [List.length_replicate]
    have h2 := Int.toNat_le_toNat (le_maxPrio cfgs c hc)
    omega
  obtain ⟨hplen, hpget⟩ := insertPure_getD jn cfgs _ hltall
  have hrange : s3.constraint_vector =
      (List.range ((maxPrio cfgs).toNat + 1)).map
        (fun p => (cfgs.filter (fun c => c.priority.toNat = p)).map
          (fun c => mkExtendedConstraint c jn)) := by
    rw [hvec0]
    apply eq_range_map_of_getD _ _ _ []
    · rw [hplen, List.length_replicate]
    · intro p hp
      rw [hpget p]
      simp
  have hfv : (configure s cfgs jn).1.constraint_vector =
      s3.constraint_vector.filter (fun l => !l.isEmpty) := by
    rw [hfin]
    rfl
  have hfilter : s3.constraint_vector.filter (fun l => !l.isEmpty) =
      ((List.range ((maxPrio cfgs).toNat + 1)).filter
        (fun p => !((cfgs.filter (fun c => c.priority.toNat = p)).map
          (fun c => mkExtendedConstraint c jn)).isEmpty)).map
        (fun p => (cfgs.filter (fun c => c.priority.toNat = p)).map
          (fun c => mkExtendedConstraint c jn)) := by
    rw [hrange, List.filter_map]
    rfl
  have hpred : ∀ p ∈ List.range ((maxPrio cfgs).toNat + 1),
      (!((cfgs.filter (fun c => c.priority.toNat = p)).map
          (fun c => mkExtendedConstraint c jn)).isEmpty) =
        (cfgs.any (fun c => c.priority = (p : Int))) := by
    intro p _
    rw [Bool.eq_iff_iff]
    constructor
    · intro hne
      have hne2 : ¬ (cfgs.filter (fun c => decide (c.priority.toNat = p))) = [] := by
        intro hnil
        rw [hnil] at hne
        simp at hne
      rcases List.exists_mem_of_ne_nil _ hne2 with ⟨c, hcmem⟩
      have hcf := List.mem_filter.1 hcmem
      refine List.any_eq_true.2 ⟨c, hcf.1, ?_⟩
      have h3 := (htn c hcf.1 p).1 (by simpa using hcf.2)
      simpa using h3
    · intro hany
      rcases List.any_eq_true.1 hany with ⟨c, hc, hcp⟩
      have htnr := (htn c hc p).2 (by simpa using hcp)
      have hne2 : (cfgs.filter (fun c => decide (c.priority.toNat = p))) ≠ [] := by
        intro hnil
        have hnone := List.filter_eq_nil_iff.1 hnil
        exact hnone c hc (by simpa using htnr)
      simpa using hne2
  have hpp : (List.range ((maxPrio cfgs).toNat + 1)).filter
      (fun p => !((cfgs.filter (fun c => c.priority.toNat = p)).map
        (fun c => mkExtendedConstraint c jn)).isEmpty) = presentPrios cfgs :=
    List.filter_congr hpred
  refine ⟨?_, ?_, ?_, ?_⟩
  · rw [hfv, hfilter, hpp, List.map_map]
    apply List.map_congr_left
    intro p hp
    show List.map (fun c => c.config)
        ((cfgs.filter (fun c => c.priority.toNat = p)).map
          (fun c => mkExtendedConstraint c jn)) = _
    rw [List.map_map]
    have hid : ((fun c : ExtendedConstraint => c.config) ∘
        (fun c => mkExtendedConstraint c jn)) = fun c => c := rfl
    rw [hid, List.map_id']
    apply List.filter_congr
    intro c hc
    simp only [decide_eq_decide]
    exact htn c hc p
  · exact List.Pairwise.sublist (List.filter_sublist _)
      (List.pairwise_lt_range _)
  · intro p
    constructor
    · intro hp
      rcases List.mem_filter.1 hp with ⟨-, hany⟩
      rcases List.any_eq_true.1 hany with ⟨c, hc, hcp⟩
      exact ⟨c, hc, by simpa using hcp⟩
    · rintro ⟨c, hc, hcp⟩
      apply List.mem_filter.2
      refine ⟨?_, List.any_eq_true.2 ⟨c, hc, by simpa using hcp⟩⟩
      apply List.mem_range.2
      have h1 : c.priority.toNat = p := (htn c hc p).2 hcp
      have h2 := Int.toNat_le_toNat (le_maxPrio cfgs c hc)
      omega
  · intro level hlev
    rw [hfv] at hlev
    have h2 := (List.mem_filter.1 hlev).2
    simpa using h2

/-- Witness for C6: the spec's {0, 0, 3} example yields exactly two levels,
with present priorities [0, 3]. -/
theorem configure_priority_grouping_witness :
    ((configure initState cfgE ["j1"]).1.constraint_vector.map
        (List.map (fun c => c.config)) =
      (presentPrios cfgE).map (fun p : Nat => cfgE.filter (fun c => c.priority = (p : Int))) ∧
    List.Pairwise (· < ·) (presentPrios cfgE) ∧
    (∀ p : Nat, p ∈ presentPrios cfgE ↔ ∃ c ∈ cfgE, c.priority = (p : Int)) ∧
    (∀ level ∈ (configure initState cfgE ["j1"]).1.constraint_vector, level ≠ [])) ∧
    sE.constraint_vector.length = 2 ∧ presentPrios cfgE = [0, 3] := by
  refine ⟨configure_priority_grouping initState cfgE ["j1"]
    (by with_unfolding_all decide), by with_unfolding_all decide,
    by with_unfolding_all decide⟩

/-- C1 (amended): configure() marks the solver configured exactly on full
success and never resets the flag on failure; consequently after a failing
configure() on a solver that was never successfully configured, both
constraint lookup and equation assembly reject with the not-configured
error.  (After a failing reconfiguration that follows an earlier successful
configure(), the flag remains set — see the counterexample.) -/
theorem configure_flag_semantics (s : WbcState) (cfgs : List ConstraintConfig)
    (jn : List String) :
    ((configure s cfgs jn).2 = true → (configure s cfgs jn).1.configured = true) ∧
    ((configure s cfgs jn).2 = false →
      (configure s cfgs jn).1.configured = s.configured) ∧
    (s.configured = false → (configure s cfgs jn).2 = false →
      ∀ (name : String) (env : Env) (tfs : TaskFrameMap),
        constraintLookup (configure s cfgs jn).1 name = .error .notConfigured ∧
        prepareEqSystem env (configure s cfgs jn).1 tfs = .error .notConfigured) := by
  have hpres : (configure s cfgs jn).2 = false →
      (configure s cfgs jn).1.configured = s.configured := by
    intro hfalse
    simp only [configure] at hfalse ⊢
    split at hfalse
    · rename_i hbad
      rw [if_pos hbad]
      rfl
    · rename_i hbad
      rw [if_neg hbad]
      cases hins : insertConstraints jn cfgs (configureStage2 (configureStage1 s jn) cfgs) with
      | mk s3 b =>
        rw [hins] at hfalse
        cases b
        · have hf := (insertConstraints_fields jn cfgs
            (configureStage2 (configureStage1 s jn) cfgs)).1
          rw [hins] at hf
          exact hf
        · simp at hfalse
  refine ⟨?_, hpres, ?_⟩
  · intro hok
    obtain ⟨-, s3, -, hfin⟩ := configure_true_elim s cfgs jn hok
    rw [hfin]
    rfl
  · intro hconf hfalse name env tfs
    have hcfg : (configure s cfgs jn).1.configured = false := by
      rw [hpres hfalse, hconf]
    constructor
    · unfold constraintLookup
      rw [if_pos (by simp [hcfg])]
    · unfold prepareEqSystem
      rw [if_pos (by simp [hcfg])]

/-- Witness for the amended C1: a first-ever failing configure() (invalid
priority) leaves the solver unconfigured, so lookup and assembly both fail
with the not-configured error. -/
theorem configure_flag_semantics_witness :
    constraintLookup (configure initState [badC] ["j1"]).1 "c1" =
      .error .notConfigured ∧
    prepareEqSystem envS (configure initState [badC] ["j1"]).1 [] =
      .error .notConfigured :=
  (configure_flag_semantics initState [badC] ["j1"]).2.2
    (by with_unfolding_all decide) (by with_unfolding_all decide) "c1" envS []

/-- C1 counterexample: after a successful configure() followed by a failing
reconfiguration, the solver still counts as configured, and constraint
lookup fails with the invalid-name error rather than the not-configured
error the claim requires. -/
theorem configure_failed_reconfigure_counterexample :
    (configure initState [cfgS] ["j1", "j2"]).2 = true ∧
    (configure sA [badC] ["j1", "j2"]).2 = false ∧
    sB.configured = true ∧
    constraintLookup sB "c1" = .error .invalidConstraintName ∧
    constraintLookup sB "c1" ≠ .error .notConfigured := by
  refine ⟨?_, ?_, ?_, ?_, ?_⟩ <;> with_unfolding_all decide

/-- C2: the source transforms the reference twist with `KDL::Frame *
KDL::Twist` (which also shifts the reference point by the frame's
translation), not the rotation-only `KDL::Rotation * KDL::Twist` its own
comment and the spec describe: with the root pose at identity and the
reference frame translated by (1,0,0), the purely rotational reference
twist (0,0,0,0,0,1) acquires the translational component (0,-1,0). -/
theorem refTwist_frame_vs_rotation :
    refTwistCode rootA refA [0, 0, 0, 0, 0, 1] = [0, -1, 0, 0, 0, 1] ∧
    refTwistRotationOnly rootA refA [0, 0, 0, 0, 0, 1] = [0, 0, 0, 0, 0, 1] ∧
    refTwistCode rootA refA [0, 0, 0, 0, 0, 1] ≠
      refTwistRotationOnly rootA refA [0, 0, 0, 0, 0, 1] := by
  refine ⟨?_, ?_, ?_⟩ <;> with_unfolding_all decide

/-- C7: the singular-value processing inverts exactly the strictly positive
singular values and zeroes the output directions of the others (so the
pseudo-inverse is well-defined with no division by zero even for
rank-deficient local Jacobians); the constraint's task matrix equals the
selected sub-block of the pseudo-inverse times (JacobianOfTip −
JacobianOfRoot); and for a full-rank decomposition the processed `H` is a
true inverse of the decomposed matrix. -/
theorem cartesian_pseudoinverse_task_matrix {bigN : Nat} (n : Nat) (hn : n ≤ 6)
    (u v : Matrix (Fin 6) (Fin 6) ℚ) (sv : Fin 6 → ℚ)
    (jacTip jacRoot : Matrix (Fin 6) (Fin bigN) ℚ) :
    (∀ i j, sv j ≤ 0 → svdInvertCols u sv i j = 0) ∧
    (∀ i j, 0 < sv j → svdInvertCols u sv i j = u i j * (1 / sv j)) ∧
    taskMatrixCart n hn (pinvH u sv v) jacTip jacRoot =
      subBlock n hn (pinvH u sv v) * (jacTip - jacRoot) ∧
    ((∀ j, 0 < sv j) → u.transpose * u = 1 → v.transpose * v = 1 →
      pinvH u sv v * (u * Matrix.diagonal sv * v.transpose) = 1) := by
  refine ⟨?_, ?_, ?_, ?_⟩
  · intro i j hle
    simp [svdInvertCols, not_lt.2 hle]
  · intro i j hpos
    simp [svdInvertCols, hpos]
  · unfold taskMatrixCart
    rw [Matrix.mul_sub]
  · intro hpos hu hv
    have hinv : svdInvertCols u sv = u * Matrix.diagonal (fun j => 1 / sv j) := by
      ext i j
      rw [Matrix.mul_diagonal]
      simp [svdInvertCols, hpos j]
    have hDD : Matrix.diagonal (fun j => 1 / sv j) * Matrix.diagonal sv =
        (1 : Matrix (Fin 6) (Fin 6) ℚ) := by
      rw [Matrix.diagonal_mul_diagonal]
      have hone : ((fun j => 1 / sv j * sv j) : Fin 6 → ℚ) = fun _ => 1 := by
        funext j
        rw [one_div, inv_mul_cancel₀ (ne_of_gt (hpos j))]
      rw [hone]
      exact Matrix.diagonal_one
    unfold pinvH
    rw [hinv, Matrix.transpose_mul, Matrix.diagonal_transpose]
    have h1 : u.transpose * (u * (Matrix.diagonal sv * v.transpose)) =
        Matrix.diagonal sv * v.transpose := by
      rw [← Matrix.mul_assoc, hu, Matrix.one_mul]
    have h2 : Matrix.diagonal (fun j => 1 / sv j) *
        (Matrix.diagonal sv * v.transpose) = v.transpose := by
      rw [← Matrix.mul_assoc, hDD, Matrix.one_mul]
    simp only [Matrix.mul_assoc]
    rw [h1, h2]
    exact Matrix.mul_eq_one_comm.mp hv

/-- Witness for C7 at the identity decomposition (all singular values 1). -/
theorem cartesian_pseudoinverse_task_matrix_witness :
    (∀ i j : Fin 6, (1 : ℚ) ≤ 0 → svdInvertCols 1 (fun _ => 1) i j = 0) ∧
    (∀ i j : Fin 6, 0 < (1 : ℚ) →
      svdInvertCols 1 (fun _ => 1) i j = (1 : Matrix (Fin 6) (Fin 6) ℚ) i j * (1 / 1)) ∧
    taskMatrixCart 6 (by omega) (pinvH 1 (fun _ => 1) 1)
        (0 : Matrix (Fin 6) (Fin 1) ℚ) 0 =
      subBlock 6 (by omega) (pinvH 1 (fun _ => 1) 1) *
        ((0 : Matrix (Fin 6) (Fin 1) ℚ) - 0) ∧
    pinvH 1 (fun _ => 1) 1 *
        (1 * Matrix.diagonal (fun _ => (1 : ℚ)) *
          (1 : Matrix (Fin 6) (Fin 6) ℚ).transpose) = 1 := by
  obtain ⟨h1, h2, h3, h4⟩ := cartesian_pseudoinverse_task_matrix 6 (by omega)
    1 1 (fun _ => 1) (0 : Matrix (Fin 6) (Fin 1) ℚ) 0
  exact ⟨h1, h2, h3, h4 (fun j => one_pos) (by simp) (by simp)⟩

/-- C8: assemble() rejects with the not-configured error when invoked on an
unconfigured solver, and — before mutating the Jacobian registry or any
equation system — rejects with the incomplete-task-frame-input error when
the per-cycle input lacks an entry for a required task-frame name. -/
theorem prepareEq_error_conditions (env : Env) (s : WbcState) (tfs : TaskFrameMap) :
    (s.configured = false → prepareEqSystem env s tfs = .error .notConfigured) ∧
    (∀ f, s.configured = true → f ∈ s.task_frame_ids → mapFind? tfs f = none →
      prepareEqSystem env s tfs = .error .incompleteTaskFrameInput) := by
  constructor
  · intro hc
    unfold prepareEqSystem
    rw [if_pos (by simp [hc])]
  · intro f hc hmem hnone
    unfold prepareEqSystem
    rw [if_neg (by simp [hc]),
      if_pos (List.any_eq_true.2 ⟨f, hmem, by simp [hnone]⟩)]

/-- Witness for C8: a fresh solver rejects with not-configured; a solver
configured with one Cartesian constraint (required frames r, t, rf) rejects
an empty task-frame input with incomplete-task-frame-input. -/
theorem prepareEq_error_conditions_witness :
    prepareEqSystem envS initState [] = .error .notConfigured ∧
    prepareEqSystem envS sCart [] = .error .incompleteTaskFrameInput := by
  constructor
  · exact (prepareEq_error_conditions envS initState []).1
      (by with_unfolding_all decide)
  · exact (prepareEq_error_conditions envS sCart []).2 "r"
      (by with_unfolding_all decide) (by with_unfolding_all decide)
      (by with_unfolding_all decide)

/-- C9: for every valid configuration (a successful configure() with
duplicate-free joint names), jointNames() returns exactly the configured
joint-name list in its original order — the joint index map round-trips. -/
theorem jointNames_round_trip (s : WbcState) (cfgs : List ConstraintConfig)
    (jn : List String) (hnd : jn.Nodup) (hok : (configure s cfgs jn).2 = true) :
    jointNames (configure s cfgs jn).1 = jn := by
  obtain ⟨-, s3, hins, hfin⟩ := configure_true_elim s cfgs jn hok
  have hjim : (configure s cfgs jn).1.joint_index_map = buildJointIndexMap jn := by
    rw [hfin]
    have h1 : (configureFinish s3).joint_index_map = s3.joint_index_map := rfl
    rw [h1]
    have h2 := (insertConstraints_fields jn cfgs
      (configureStage2 (configureStage1 s jn) cfgs)).2
    rw [hins] at h2
    exact h2
  unfold jointNames
  rw [hjim]
  exact jointNamesOf_build jn hnd

/-- Witness for C9 on the two-joint configuration. -/
theorem jointNames_round_trip_witness :
    jointNames (configure initState [] ["j1", "j2"]).1 = ["j1", "j2"] :=
  jointNames_round_trip initState [] ["j1", "j2"]
    (by with_unfolding_all decide) (by with_unfolding_all decide)

/-- C10: unlike constraint lookup (which throws the not-configured error),
the introspection operations can be invoked before configure(): jointNames()
returns the empty list and getConstraintVector() yields an empty, zero-level
snapshot. -/
theorem introspection_before_configure :
    jointNames initState = [] ∧
    getConstraintVector initState = [] ∧
    ∀ name : String, constraintLookup initState name = .error .notConfigured := by
  refine ⟨?_, ?_, ?_⟩
  · with_unfolding_all decide
  · with_unfolding_all decide
  · intro name
    unfold constraintLookup
    rw [if_pos (by simp [initState])]

/-- Witness for C10 at a concrete name. -/
theorem introspection_before_configure_witness :
    constraintLookup initState "x" = .error .notConfigured :=
  introspection_before_configure.2.2 "x"

end Wbc
